import Mathlib

/-!
uThreads: the I/O readiness handler (`src/io/IOHandler.cpp`).

A shallow embedding of `IOHandler::open`, `block`, `postSwitchFunc`, `close`, `unblock`,
`unblockBulk` and `PollReadyBulk`, followed by theorems about them.

Conventions of the embedding.

* A `uThread*` is the address it holds, a natural number; `nullptr` is `0` and pointer
  comparison is comparison of addresses.
* `PollData` carries the fields the translation unit touches. The mutex `pd.mtx` is not a
  field: every function that takes it holds it for its whole body, so each such body is one
  atomic transition of the record.
* A call that leaves the translation unit (the epoll backend, the fiber engine, the scheduler,
  the record pool, `std::cerr`) is recorded as an `Event`; every function returns the events it
  emitted, in program order, next to the state it leaves behind.
* Results of backend calls (`_Open`, `_Close`) are arguments of the functions that make them.
* A direction mask (`int flag`) is a natural number; `flag & Flag::UT_IOREAD` is `&&&`, and a
  test of the result is a comparison with `0`.
* `exit(EXIT_FAILURE)` and a failed `assert` end a call without a return; `Res` tells the three
  endings apart.
* `IOHandler.h` is not part of the translation unit. Its constants (`POLL_READY`, `POLL_WAIT`,
  `UT_IOREAD`, `UT_IOWRITE`) are the parameter `Consts`; `PollData::reset`, the scheduler's two
  bulk calls and the backend's dispatch pass follow the specification and say so.
-/

namespace UThreads

/-! ## The embedding -/

/-- The null `uThread*`. -/
def nullptr : Nat := 0

/-- Constants that `IOHandler.h` defines and this translation unit only uses: the two slot
sentinels and the two direction bits. They are parameters of every function below. -/
structure Consts where
  POLL_READY : Nat
  POLL_WAIT : Nat
  UT_IOREAD : Nat
  UT_IOWRITE : Nat
deriving DecidableEq, Repr

/-- Modelled from the spec: the requirements on the constants of `IOHandler.h`, which is missing.
The sentinels are non-null and differ from each other, the Ready sentinel lies below the Armed
sentinel `POLL_WAIT` (so that `> POLL_WAIT` singles out live fiber identities, as the comments
`if(rold == POLL_READY) do nothing` in `unblock` expect), and `READ`, `WRITE` are non-zero
disjoint direction bits. -/
def Consts.WF (c : Consts) : Prop :=
  0 < c.POLL_READY ∧ c.POLL_READY < c.POLL_WAIT ∧
    c.UT_IOREAD ≠ 0 ∧ c.UT_IOWRITE ≠ 0 ∧ c.UT_IOREAD &&& c.UT_IOWRITE = 0

instance (c : Consts) : Decidable c.WF := by
  unfold Consts.WF
  infer_instance

/-- Modelled from the spec: a concrete choice of the constants of the missing `IOHandler.h`
(`POLL_READY = 1`, `POLL_WAIT = 2`, `UT_IOREAD = 1`, `UT_IOWRITE = 2`), used for evaluation. -/
def stdConsts : Consts :=
  { POLL_READY := 1, POLL_WAIT := 2, UT_IOREAD := 1, UT_IOWRITE := 2 }

/-- Modelled from the spec: a valid fiber identity is an address for which the comparison
"greater than Armed" holds (the type `uThread` is declared outside this translation unit). -/
def validUT (c : Consts) (ut : Nat) : Prop := c.POLL_WAIT < ut

instance (c : Consts) (ut : Nat) : Decidable (validUT c ut) := by
  unfold validUT
  infer_instance

/-- The fields of `PollData` that `IOHandler.cpp` reads and writes. -/
structure PollData where
  fd : Int
  opened : Bool
  closing : Bool
  isBlockingOnRead : Bool
  rut : Nat
  wut : Nat
deriving DecidableEq, Repr

/-- Modelled from the spec: `PollData::reset()` is declared in the missing `IOHandler.h`; it
clears both slots to Idle and clears `closing` and `opened`. -/
def PollData.reset (pd : PollData) : PollData :=
  { pd with rut := nullptr, wut := nullptr, closing := false, opened := false }

/-- Reads `*utp` for `uThread** utp = isRead ? &pd.rut : &pd.wut`. -/
def PollData.getSlot (pd : PollData) (isRead : Bool) : Nat :=
  if isRead then pd.rut else pd.wut

/-- Writes `*utp = v` for `uThread** utp = isRead ? &pd.rut : &pd.wut`. -/
def PollData.setSlot (pd : PollData) (isRead : Bool) (v : Nat) : PollData :=
  if isRead then { pd with rut := v } else { pd with wut := v }

/-- The three diagnostics written to `std::cerr`. -/
inductive LogMsg where
  | epollError
  | exceptionOnOpenRut
  | exceptionOnRut
deriving DecidableEq, Repr

/-- Calls that leave the translation unit. -/
inductive Event where
  /-- Call of `_Open(pd.fd, pd)`. -/
  | backendOpen (fd : Int)
  /-- Call of `_Close(pd.fd)`. -/
  | backendClose (fd : Int)
  /-- Output to `std::cerr`. -/
  | log (m : LogMsg)
  /-- Call of `kThread::currentKT->currentUT->suspend(postSwitchFunc, &pd)` by fiber `ut`. -/
  | suspend (ut : Nat)
  /-- Call of `ut->resume()`. -/
  | resume (ut : Nat)
  /-- Assignment `ut->state = uThread::State::READY`. -/
  | markReady (ut : Nat)
  /-- Call of `Scheduler::prepareBulkPush(ut)`. -/
  | bulkPush (ut : Nat)
  /-- Call of `localCluster->scheduler->schedule(bulkQueue, bulkCounter)`. -/
  | schedule (queue : List Nat) (count : Nat)
  /-- Call of `pd.reset()`. -/
  | resetPD
  /-- Call of `pollCache.pushPollData(&pd)`. -/
  | poolPush
deriving DecidableEq, Repr

/-- How a call ends: it returns, the process leaves through `exit(EXIT_FAILURE)`, or an
`assert` fails on entry. -/
inductive Res (α : Type) where
  | ret (a : α)
  | exited (a : α)
  | abort
deriving DecidableEq, Repr

/-- The members of `IOHandler` used by the bulk path. -/
structure IOHandler where
  bulkCounter : Nat
  bulkQueue : List Nat
deriving DecidableEq, Repr

/-- Modelled from the spec: `Scheduler::prepareBulkPush` lives in the missing scheduler; it
appends the fiber to the reactor-owned batch. -/
def Scheduler.prepareBulkPush (io : IOHandler) (ut : Nat) : IOHandler :=
  { io with bulkQueue := io.bulkQueue ++ [ut] }

/-- Modelled from the spec: `Scheduler::schedule(queue, count)` lives in the missing scheduler;
it is one submission of the entire batch, which leaves the reactor's batch empty. -/
def Scheduler.schedule (io : IOHandler) : IOHandler × List Event :=
  ({ io with bulkQueue := [] }, [Event.schedule io.bulkQueue io.bulkCounter])

/-- Embeds `IOHandler::open`. `openRes` is what `_Open(pd.fd, pd)` returns. -/
def IOHandler.open_ (pd : PollData) (openRes : Int) : Res (PollData × List Event) :=
  if ¬ (pd.fd > 0) then Res.abort
  else
    let ev := [Event.backendOpen pd.fd]
    if openRes = 0 then
      Res.ret ({ pd with opened := true }, ev)
    else
      Res.exited (pd, ev ++ [Event.log LogMsg.epollError])

/-- Embeds `IOHandler::block`, run by fiber `cur` (`kThread::currentKT->currentUT`), up to and
including the call of `suspend`. An emitted `Event.suspend cur` says that the suspension of
`cur` was initiated. -/
def IOHandler.block (c : Consts) (pd : PollData) (isRead : Bool) (cur : Nat) (openRes : Int) :
    Res (PollData × List Event) :=
  match (if !pd.opened then IOHandler.open_ pd openRes else Res.ret (pd, [])) with
  | Res.abort => Res.abort
  | Res.exited r => Res.exited r
  | Res.ret (pd, ev) =>
    let utp := pd.getSlot isRead
    if utp = c.POLL_READY then
      Res.ret (pd.setSlot isRead nullptr, ev)
    else
      let ev := if utp > c.POLL_WAIT then ev ++ [Event.log LogMsg.exceptionOnOpenRut] else ev
      let pd := { pd with isBlockingOnRead := isRead }
      Res.ret (pd, ev ++ [Event.suspend cur])

/-- Embeds `IOHandler::postSwitchFunc(ut, &pd)`; the first test is `assert(ut != nullptr)`
(`args` is the record itself here, so `assert(args != nullptr)` holds). -/
def IOHandler.postSwitchFunc (c : Consts) (ut : Nat) (pd : PollData) :
    Res (PollData × List Event) :=
  if ut = nullptr then Res.abort
  else if pd.closing then Res.ret (pd, [])
  else
    let isRead := pd.isBlockingOnRead
    let utp := pd.getSlot isRead
    if utp = c.POLL_READY then
      Res.ret (pd.setSlot isRead nullptr, [Event.resume ut])
    else if utp = nullptr then
      Res.ret (pd.setSlot isRead ut, [])
    else
      Res.ret (pd, [Event.log LogMsg.exceptionOnRut])

/-- Embeds `IOHandler::unblock`. -/
def IOHandler.unblock (c : Consts) (pd : PollData) (flag : Nat) : PollData × List Event :=
  if pd.closing then (pd, [])
  else
    let rold := pd.rut
    let wold := pd.wut
    let r1 : PollData × List Event :=
      if flag &&& c.UT_IOREAD ≠ 0 then
        if rold = nullptr ∨ rold = c.POLL_WAIT then ({ pd with rut := c.POLL_READY }, [])
        else if rold > c.POLL_WAIT then ({ pd with rut := nullptr }, [Event.resume rold])
        else (pd, [])
      else (pd, [])
    let r2 : PollData × List Event :=
      if flag &&& c.UT_IOWRITE ≠ 0 then
        if wold = nullptr ∨ wold = c.POLL_WAIT then ({ r1.1 with wut := c.POLL_READY }, r1.2)
        else if wold > c.POLL_WAIT then
          ({ r1.1 with wut := nullptr }, r1.2 ++ [Event.resume wold])
        else r1
      else r1
    r2

/-- Embeds `IOHandler::unblockBulk`. -/
def IOHandler.unblockBulk (c : Consts) (io : IOHandler) (pd : PollData) (flag : Nat) :
    IOHandler × PollData × List Event :=
  if pd.closing then (io, pd, [])
  else
    let rold := pd.rut
    let wold := pd.wut
    let r1 : IOHandler × PollData × List Event :=
      if flag &&& c.UT_IOREAD ≠ 0 then
        if rold = nullptr ∨ rold = c.POLL_WAIT then (io, { pd with rut := c.POLL_READY }, [])
        else if rold > c.POLL_WAIT then
          ({ Scheduler.prepareBulkPush io rold with bulkCounter := io.bulkCounter + 1 },
            { pd with rut := nullptr }, [Event.markReady rold, Event.bulkPush rold])
        else (io, pd, [])
      else (io, pd, [])
    let r2 : IOHandler × PollData × List Event :=
      if flag &&& c.UT_IOWRITE ≠ 0 then
        if wold = nullptr ∨ wold = c.POLL_WAIT then
          (r1.1, { r1.2.1 with wut := c.POLL_READY }, r1.2.2)
        else if wold > c.POLL_WAIT then
          ({ Scheduler.prepareBulkPush r1.1 wold with bulkCounter := r1.1.bulkCounter + 1 },
            { r1.2.1 with wut := nullptr },
            r1.2.2 ++ [Event.markReady wold, Event.bulkPush wold])
        else r1
      else r1
    r2

/-- Embeds `IOHandler::close`. `closeRes` is what `_Close(pd.fd)` returns. The two statements
`flag | Flag::UT_IOREAD;` and `flag | Flag::UT_IOWRITE;` compute a value and drop it, and the
second `if` ends in `;`, so its guard has an empty body. -/
def IOHandler.close (c : Consts) (pd : PollData) (closeRes : Int) :
    PollData × List Event × Int :=
  let flag : Nat := 0
  let _dropped1 := if pd.rut > c.POLL_WAIT then flag ||| c.UT_IOREAD else flag
  let _guard2 := decide (pd.wut > c.POLL_WAIT)
  let _dropped2 := flag ||| c.UT_IOWRITE
  let r : PollData × List Event := if flag ≠ 0 then IOHandler.unblock c pd flag else (pd, [])
  let pd1 := { r.1 with closing := true }
  let res := closeRes
  let pd2 := pd1.reset
  (pd2, r.2 ++ [Event.backendClose pd1.fd, Event.resetPD, Event.poolPush], res)

/-- Embeds `IOHandler::PollReadyBulk`. -/
def IOHandler.PollReadyBulk (c : Consts) (io : IOHandler) (pd : PollData) (flag : Nat)
    (isLast : Bool) : IOHandler × PollData × List Event :=
  let r := IOHandler.unblockBulk c io pd flag
  if isLast = true ∧ r.1.bulkCounter > 0 then
    let s := Scheduler.schedule r.1
    ({ s.1 with bulkCounter := 0 }, r.2.1, r.2.2 ++ s.2)
  else r

/-- Embeds `IOHandler::PollReady`. -/
def IOHandler.PollReady (c : Consts) (pd : PollData) (flag : Nat) : PollData × List Event :=
  IOHandler.unblock c pd flag

/-! ### Vocabulary of the specification -/

/-- The four logical states of a waiter slot, and the addresses that encode none of them. -/
inductive Slot where
  | Idle
  | Armed
  | Ready
  | Waiting (f : Nat)
  | Invalid (v : Nat)
deriving DecidableEq, Repr

/-- The logical state a slot value encodes: `nullptr` is Idle, `POLL_READY` is Ready,
`POLL_WAIT` is Armed, and an address above `POLL_WAIT` is the fiber waiting there. -/
def slotState (c : Consts) (v : Nat) : Slot :=
  if v = nullptr then Slot.Idle
  else if v = c.POLL_READY then Slot.Ready
  else if v = c.POLL_WAIT then Slot.Armed
  else if v > c.POLL_WAIT then Slot.Waiting v
  else Slot.Invalid v

/-- The direction bit of a direction: `UT_IOREAD` for read, `UT_IOWRITE` for write. -/
def dirFlag (c : Consts) (isRead : Bool) : Nat :=
  if isRead then c.UT_IOREAD else c.UT_IOWRITE

/-- The fiber waiting in one direction of a record, when the mask requests that direction. -/
def waitingDir (c : Consts) (pd : PollData) (flag : Nat) (isRead : Bool) : List Nat :=
  if flag &&& dirFlag c isRead ≠ 0 then
    match slotState c (pd.getSlot isRead) with
    | Slot.Waiting f => [f]
    | _ => []
  else []

/-- The fibers waiting in the requested directions of a record, read before write. -/
def waitingIn (c : Consts) (pd : PollData) (flag : Nat) : List Nat :=
  waitingDir c pd flag true ++ waitingDir c pd flag false

/-- The race scenario: fiber `f` runs `block(pd, isRead)`, then the poller runs
`unblock(pd, direction)`, then the post-suspend callback of `f` runs. The events of the three
calls are concatenated. -/
def raceScenario (c : Consts) (pd : PollData) (isRead : Bool) (f : Nat) (openRes : Int) :
    Res (PollData × List Event) :=
  match IOHandler.block c pd isRead f openRes with
  | Res.abort => Res.abort
  | Res.exited r => Res.exited r
  | Res.ret (pd1, ev1) =>
    let r2 := IOHandler.unblock c pd1 (dirFlag c isRead)
    match IOHandler.postSwitchFunc c f r2.1 with
    | Res.abort => Res.abort
    | Res.exited r => Res.exited (r.1, ev1 ++ r2.2 ++ r.2)
    | Res.ret (pd3, ev3) => Res.ret (pd3, ev1 ++ r2.2 ++ ev3)

/-- The value `unblock` and `unblockBulk` leave in a requested slot that held `v`. -/
def slotAfterEvent (c : Consts) (v : Nat) : Nat :=
  if v = nullptr ∨ v = c.POLL_WAIT then c.POLL_READY
  else if v > c.POLL_WAIT then nullptr
  else v

/-- The fibers `unblock` and `unblockBulk` take out of the requested slots, by the test the
code makes, read before write. -/
def takenOut (c : Consts) (pd : PollData) (flag : Nat) : List Nat :=
  (if flag &&& c.UT_IOREAD ≠ 0 ∧ pd.rut > c.POLL_WAIT then [pd.rut] else [])
    ++ (if flag &&& c.UT_IOWRITE ≠ 0 ∧ pd.wut > c.POLL_WAIT then [pd.wut] else [])

/-! ### Interleavings on one record -/

/-- The atomic steps taken on one record: the entry of `block` by a fiber (up to its call of
`suspend`), the post-suspend callback of a fiber, and the poller's `unblock` and
`unblockBulk`. -/
inductive Step where
  | blockEntry (f : Nat) (isRead : Bool) (openRes : Int)
  | postSwitch (f : Nat)
  | unblock (flag : Nat)
  | unblockBulk (flag : Nat)
deriving DecidableEq, Repr

/-- One record together with the reactor's bulk state, the fibers whose suspension was
initiated and whose post-suspend callback has not run yet, and all events so far. -/
structure Sys where
  pd : PollData
  io : IOHandler
  pending : List Nat
  trace : List Event
deriving DecidableEq, Repr

/-- How often fiber `f` initiated a suspension. -/
def suspendCount (tr : List Event) (f : Nat) : Nat :=
  tr.count (Event.suspend f)

/-- How often fiber `f` was resumed or put into the batch. -/
def answerCount (tr : List Event) (f : Nat) : Nat :=
  tr.count (Event.resume f) + tr.count (Event.bulkPush f)

/-- The start: a reset record, an empty batch, nobody suspended. -/
def Sys.init (pd : PollData) : Sys :=
  { pd := pd.reset, io := { bulkCounter := 0, bulkQueue := [] }, pending := [], trace := [] }

/-- One atomic step. A fiber enters `block` only if it is a valid identity and each of its
earlier suspensions has been answered; the fiber engine runs the callback of a fiber only
after that fiber initiated a suspension, once for each suspension. There is no next state
when the step is not enabled or the call does not return. -/
def Sys.step (c : Consts) (s : Sys) : Step → Option Sys
  | Step.blockEntry f isRead openRes =>
    if validUT c f ∧ suspendCount s.trace f ≤ answerCount s.trace f then
      match IOHandler.block c s.pd isRead f openRes with
      | Res.ret (pd, ev) =>
        some { s with
          pd := pd
          trace := s.trace ++ ev
          pending := if Event.suspend f ∈ ev then s.pending ++ [f] else s.pending }
      | _ => none
    else none
  | Step.postSwitch f =>
    if f ∈ s.pending then
      match IOHandler.postSwitchFunc c f s.pd with
      | Res.ret (pd, ev) =>
        some { s with pd := pd, trace := s.trace ++ ev, pending := s.pending.erase f }
      | _ => none
    else none
  | Step.unblock flag =>
    let r := IOHandler.unblock c s.pd flag
    some { s with pd := r.1, trace := s.trace ++ r.2 }
  | Step.unblockBulk flag =>
    let r := IOHandler.unblockBulk c s.io s.pd flag
    some { s with io := r.1, pd := r.2.1, trace := s.trace ++ r.2.2 }

/-- A finite interleaving of atomic steps. -/
def Sys.run (c : Consts) (s : Sys) : List Step → Option Sys
  | [] => some s
  | st :: rest => (s.step c st).bind (fun s1 => Sys.run c s1 rest)

/-- The invariant carried along every interleaving. -/
structure Inv (c : Consts) (s : Sys) : Prop where
  notClosing : s.pd.closing = false
  answered_le : ∀ f, answerCount s.trace f ≤ suspendCount s.trace f
  pending_open : ∀ f ∈ s.pending, answerCount s.trace f < suspendCount s.trace f
  pending_nodup : s.pending.Nodup
  rslot : s.pd.rut > c.POLL_WAIT →
    answerCount s.trace s.pd.rut < suspendCount s.trace s.pd.rut ∧ s.pd.rut ∉ s.pending
  wslot : s.pd.wut > c.POLL_WAIT →
    answerCount s.trace s.pd.wut < suspendCount s.trace s.pd.wut ∧ s.pd.wut ∉ s.pending
  distinct : s.pd.rut > c.POLL_WAIT → s.pd.rut ≠ s.pd.wut

/-! ### The bulk pass -/

/-- Modelled from the spec: one dispatch pass of the backend's wait-and-dispatch primitive (the
epoll backend is not in this translation unit). It calls `PollReadyBulk` for each ready
descriptor, in order, and marks the final callback of the pass with `isLast = true`. It returns
the reactor's bulk state, the records in the same order, and all events. -/
def bulkPass (c : Consts) (io : IOHandler) :
    List (PollData × Nat) → IOHandler × List PollData × List Event
  | [] => (io, [], [])
  | [p] =>
    let r := IOHandler.PollReadyBulk c io p.1 p.2 true
    (r.1, [r.2.1], r.2.2)
  | p :: q :: rest =>
    let r := IOHandler.PollReadyBulk c io p.1 p.2 false
    let t := bulkPass c r.1 (q :: rest)
    (t.1, r.2.1 :: t.2.1, r.2.2 ++ t.2.2)

/-- Tells a scheduler submission from the other events. -/
def Event.isSchedule : Event → Bool
  | Event.schedule _ _ => true
  | _ => false

/-- Tells the initiation of a suspension from the other events. -/
def Event.isSuspend : Event → Bool
  | Event.suspend _ => true
  | _ => false

/-- The scheduler submissions among some events. -/
def submissions (ev : List Event) : List Event := ev.filter Event.isSchedule

/-- The call returned, and it did not initiate a suspension. -/
def returnsWithoutSuspending : Res (PollData × List Event) → Bool
  | Res.ret (_, ev) => !(ev.any Event.isSuspend)
  | _ => false

/-- A sample pass: fiber `100` waits to read on descriptor 5, descriptor 6 is Idle, fiber `300`
waits to write on descriptor 7; read is requested on the first two, both directions on the
third. -/
def threeRecords : List (PollData × Nat) :=
  [(⟨5, true, false, false, 100, 0⟩, 1), (⟨6, true, false, false, 0, 0⟩, 1),
   (⟨7, true, false, false, 0, 300⟩, 3)]

/-! ### Refinement, life cycle and the batch counter -/

/-- The fiber an event resumes, if it is a resume. -/
def Event.resumedFiber : Event → Option Nat
  | Event.resume f => some f
  | _ => none

/-- The fiber an event puts into the batch, if it is a `prepareBulkPush`. -/
def Event.batchedFiber : Event → Option Nat
  | Event.bulkPush f => some f
  | _ => none

/-- The fiber an event marks READY, if it is that assignment. -/
def Event.readiedFiber : Event → Option Nat
  | Event.markReady f => some f
  | _ => none

/-- The fibers resumed by some events, in order. -/
def resumedFibers (ev : List Event) : List Nat := ev.filterMap Event.resumedFiber

/-- The fibers put into the batch by some events, in order. -/
def batchedFibers (ev : List Event) : List Nat := ev.filterMap Event.batchedFiber

/-- The fibers marked READY by some events, in order. -/
def readiedFibers (ev : List Event) : List Nat := ev.filterMap Event.readiedFiber

/-- Follows the words of the specification: `unblockBulk` performs the same slot-state
transition as `unblock`, but instead of resuming a waiting fiber directly it marks the fiber
ready, appends it to the reactor-owned batch and increments the batch counter. -/
def unblockBulkSpec (c : Consts) (io : IOHandler) (pd : PollData) (flag : Nat) :
    IOHandler × PollData × List Event :=
  let r := IOHandler.unblock c pd flag
  let fibers := resumedFibers r.2
  ({ bulkCounter := io.bulkCounter + fibers.length, bulkQueue := io.bulkQueue ++ fibers },
    r.1, fibers.flatMap (fun f => [Event.markReady f, Event.bulkPush f]))

/-- The events a call emitted before it returned or left through `exit`; none when an
`assert` failed on entry. -/
def Res.events : Res (PollData × List Event) → List Event
  | Res.ret r => r.2
  | Res.exited r => r.2
  | Res.abort => []

/-- A sequence of `PollReadyBulk` calls, each with its record, mask and `isLast`. It returns the
reactor's bulk state at the end and all events. -/
def bulkRun (c : Consts) (io : IOHandler) :
    List (PollData × Nat × Bool) → IOHandler × List Event
  | [] => (io, [])
  | call :: rest =>
    let r := IOHandler.PollReadyBulk c io call.1 call.2.1 call.2.2
    let t := bulkRun c r.1 rest
    (t.1, r.2.2 ++ t.2)

/-- Counts, along some events, the fibers put into the batch since the last scheduler
submission, starting from `n`. -/
def pushedSince (n : Nat) : List Event → Nat
  | [] => n
  | Event.bulkPush _ :: rest => pushedSince (n + 1) rest
  | Event.schedule _ _ :: rest => pushedSince 0 rest
  | _ :: rest => pushedSince n rest

/-- The fibers handed to the scheduler by some events, submission after submission. -/
def submittedFibers : List Event → List Nat
  | [] => []
  | Event.schedule q _ :: rest => q ++ submittedFibers rest
  | _ :: rest => submittedFibers rest

/-! ## Lemmas about the embedding -/

theorem slotState_idle_iff (c : Consts) (v : Nat) : slotState c v = Slot.Idle ↔ v = nullptr := by
  unfold slotState
  split_ifs <;> simp_all

theorem slotState_ready_iff (c : Consts) (hc : c.WF) (v : Nat) :
    slotState c v = Slot.Ready ↔ v = c.POLL_READY := by
  obtain ⟨h0, -⟩ := hc
  unfold slotState nullptr
  split_ifs <;> simp_all
  omega

theorem slotState_armed_iff (c : Consts) (hc : c.WF) (v : Nat) :
    slotState c v = Slot.Armed ↔ v = c.POLL_WAIT := by
  obtain ⟨h0, h1, -⟩ := hc
  unfold slotState nullptr
  split_ifs <;> simp_all <;> omega

theorem slotState_waiting_iff (c : Consts) (hc : c.WF) (v f : Nat) :
    slotState c v = Slot.Waiting f ↔ v = f ∧ validUT c f := by
  obtain ⟨h0, h1, -⟩ := hc
  unfold slotState nullptr validUT
  split_ifs <;> simp_all <;> omega

/-- The fiber waiting in a requested direction, by the test the code makes. -/
theorem waitingDir_eq (c : Consts) (hc : c.WF) (pd : PollData) (flag : Nat) (isRead : Bool) :
    waitingDir c pd flag isRead =
      if flag &&& dirFlag c isRead ≠ 0 ∧ pd.getSlot isRead > c.POLL_WAIT
      then [pd.getSlot isRead] else [] := by
  obtain ⟨h0, h1, -⟩ := hc
  unfold waitingDir slotState nullptr
  by_cases hm : flag &&& dirFlag c isRead = 0
  · simp [hm]
  · by_cases hv : pd.getSlot isRead > c.POLL_WAIT
    · have e1 : pd.getSlot isRead ≠ 0 := by omega
      have e2 : pd.getSlot isRead ≠ c.POLL_READY := by omega
      have e3 : pd.getSlot isRead ≠ c.POLL_WAIT := by omega
      simp [hm, hv, e1, e2, e3]
    · simp only [hm, hv, ne_eq, not_false_eq_true, and_false, if_false, if_true]
      split_ifs <;> rfl

/-- The record `unblock` leaves behind, and its events, on a record that is not closing. -/
theorem unblock_eq (c : Consts) (pd : PollData) (flag : Nat) (hcl : pd.closing = false) :
    IOHandler.unblock c pd flag =
      ({ pd with
          rut := if flag &&& c.UT_IOREAD ≠ 0 then slotAfterEvent c pd.rut else pd.rut
          wut := if flag &&& c.UT_IOWRITE ≠ 0 then slotAfterEvent c pd.wut else pd.wut },
        (if flag &&& c.UT_IOREAD ≠ 0 ∧ pd.rut > c.POLL_WAIT then [Event.resume pd.rut] else [])
          ++ (if flag &&& c.UT_IOWRITE ≠ 0 ∧ pd.wut > c.POLL_WAIT
              then [Event.resume pd.wut] else [])) := by
  obtain ⟨fd, op, cl, ib, rut, wut⟩ := pd
  simp only at hcl
  subst hcl
  unfold IOHandler.unblock slotAfterEvent nullptr
  simp only [Bool.false_eq_true, if_false]
  by_cases hR : flag &&& c.UT_IOREAD = 0 <;> by_cases hW : flag &&& c.UT_IOWRITE = 0 <;>
    by_cases r0 : rut = 0 ∨ rut = c.POLL_WAIT <;> by_cases r2 : rut > c.POLL_WAIT <;>
    by_cases w0 : wut = 0 ∨ wut = c.POLL_WAIT <;> by_cases w2 : wut > c.POLL_WAIT <;>
    simp [hR, hW, r0, r2, w0, w2] <;> omega

/-- The events of `unblock` on a record that is not closing: one resume for each fiber
waiting in a requested direction, read before write. -/
theorem unblock_events (c : Consts) (hc : c.WF) (pd : PollData) (flag : Nat)
    (hcl : pd.closing = false) :
    (IOHandler.unblock c pd flag).2 = (waitingIn c pd flag).map Event.resume := by
  rw [unblock_eq c pd flag hcl, waitingIn, waitingDir_eq c hc, waitingDir_eq c hc]
  simp only [dirFlag, PollData.getSlot, List.map_append, if_true, Bool.false_eq_true, if_false]
  congr 1 <;> split_ifs <;> rfl

theorem takenOut_eq_waitingIn (c : Consts) (hc : c.WF) (pd : PollData) (flag : Nat) :
    takenOut c pd flag = waitingIn c pd flag := by
  rw [waitingIn, waitingDir_eq c hc, waitingDir_eq c hc]
  simp [takenOut, dirFlag, PollData.getSlot]

/-- The state `unblockBulk` leaves behind, and its events, on a record that is not closing. -/
theorem unblockBulk_eq (c : Consts) (io : IOHandler) (pd : PollData) (flag : Nat)
    (hcl : pd.closing = false) :
    IOHandler.unblockBulk c io pd flag =
      ({ bulkCounter := io.bulkCounter + (takenOut c pd flag).length
         bulkQueue := io.bulkQueue ++ takenOut c pd flag },
        (IOHandler.unblock c pd flag).1,
        (takenOut c pd flag).flatMap (fun f => [Event.markReady f, Event.bulkPush f])) := by
  rw [unblock_eq c pd flag hcl]
  obtain ⟨fd, op, cl, ib, rut, wut⟩ := pd
  obtain ⟨n, q⟩ := io
  simp only at hcl
  subst hcl
  unfold IOHandler.unblockBulk slotAfterEvent takenOut Scheduler.prepareBulkPush nullptr
  simp only [Bool.false_eq_true, if_false]
  by_cases hR : flag &&& c.UT_IOREAD = 0 <;> by_cases hW : flag &&& c.UT_IOWRITE = 0 <;>
    by_cases r0 : rut = 0 ∨ rut = c.POLL_WAIT <;> by_cases r2 : rut > c.POLL_WAIT <;>
    by_cases w0 : wut = 0 ∨ wut = c.POLL_WAIT <;> by_cases w2 : wut > c.POLL_WAIT <;>
    simp [hR, hW, r0, r2, w0, w2] <;> omega

/-- `close` never calls `unblock`: whatever the slots hold, its events are the backend
deregistration, the reset and the push to the pool. -/
theorem close_events (c : Consts) (pd : PollData) (closeRes : Int) :
    (IOHandler.close c pd closeRes).2.1
      = [Event.backendClose pd.fd, Event.resetPD, Event.poolPush] := by
  simp [IOHandler.close]

theorem suspendCount_append (tr ev : List Event) (f : Nat) :
    suspendCount (tr ++ ev) f = suspendCount tr f + suspendCount ev f := by
  simp [suspendCount, List.count_append]

theorem answerCount_append (tr ev : List Event) (f : Nat) :
    answerCount (tr ++ ev) f = answerCount tr f + answerCount ev f := by
  simp only [answerCount, List.count_append]
  omega

theorem Inv.init (c : Consts) (pd : PollData) : Inv c (Sys.init pd) := by
  constructor <;> simp [Sys.init, PollData.reset, nullptr, answerCount, suspendCount]

/-- The entry of `block`, case by case. -/
theorem block_eq (c : Consts) (pd : PollData) (isRead : Bool) (f : Nat) (openRes : Int) :
    IOHandler.block c pd isRead f openRes =
      if pd.opened = false ∧ ¬ (pd.fd > 0) then Res.abort
      else if pd.opened = false ∧ openRes ≠ 0 then
        Res.exited (pd, [Event.backendOpen pd.fd, Event.log LogMsg.epollError])
      else if pd.getSlot isRead = c.POLL_READY then
        Res.ret ({ pd with opened := true }.setSlot isRead nullptr,
          if pd.opened then [] else [Event.backendOpen pd.fd])
      else
        Res.ret ({ pd with opened := true, isBlockingOnRead := isRead },
          (if pd.opened then [] else [Event.backendOpen pd.fd])
            ++ (if pd.getSlot isRead > c.POLL_WAIT
                then [Event.log LogMsg.exceptionOnOpenRut] else [])
            ++ [Event.suspend f]) := by
  obtain ⟨fd, op, cl, ib, rut, wut⟩ := pd
  unfold IOHandler.block IOHandler.open_
  cases op
  · by_cases h1 : fd > 0
    · by_cases h2 : openRes = 0
      · cases isRead <;>
          simp only [h1, h2, PollData.getSlot, PollData.setSlot, Bool.not_false, if_true,
            not_true, if_false, true_and, ne_eq, not_true_eq_false, and_false, and_true,
            Bool.false_eq_true] <;>
          split_ifs <;> simp
      · simp [h1, h2]
    · simp [h1]
  · cases isRead <;>
      simp only [PollData.getSlot, PollData.setSlot, Bool.not_true, if_true,
        if_false, ne_eq, and_false, false_and, Bool.false_eq_true, Bool.true_eq_false] <;>
      split_ifs <;> simp

/-- What the entry of `block` does to the slots and to the counts. -/
theorem block_summary (c : Consts) (pd pd1 : PollData) (isRead : Bool) (f : Nat)
    (openRes : Int) (ev : List Event)
    (h : IOHandler.block c pd isRead f openRes = Res.ret (pd1, ev)) :
    pd1.closing = pd.closing ∧ (∀ g, answerCount ev g = 0) ∧
      (pd1.rut = pd.rut ∨ pd1.rut = 0) ∧ (pd1.wut = pd.wut ∨ pd1.wut = 0) ∧
      ((Event.suspend f ∈ ev ∧ ∀ g, suspendCount ev g = if g = f then 1 else 0) ∨
        (Event.suspend f ∉ ev ∧ ∀ g, suspendCount ev g = 0)) := by
  rw [block_eq] at h
  by_cases hR : pd.getSlot isRead = c.POLL_READY
  · simp only [hR, if_true] at h
    refine ⟨?_, ?_, ?_, ?_, Or.inr ⟨?_, ?_⟩⟩ <;>
      split_ifs at h <;> simp only [Res.ret.injEq, Prod.mk.injEq] at h <;>
      obtain ⟨rfl, rfl⟩ := h <;> cases isRead <;>
      simp [PollData.setSlot, nullptr, answerCount, suspendCount]
  · simp only [hR, if_false] at h
    have hcount : ∀ g, List.count (Event.suspend g) [Event.suspend f] = if g = f then 1 else 0 := by
      intro g
      by_cases hg : g = f
      · subst hg; simp
      · have hg2 : ¬ f = g := fun e => hg e.symm
        simp [List.count_cons, hg, hg2]
    refine ⟨?_, ?_, ?_, ?_, Or.inl ⟨?_, ?_⟩⟩ <;>
      split_ifs at h <;> simp only [Res.ret.injEq, Prod.mk.injEq] at h <;>
      obtain ⟨rfl, rfl⟩ := h <;>
      simp [answerCount, suspendCount, List.count_append, hcount]

/-- What the post-suspend callback does to the slots and to the counts. -/
theorem postSwitchFunc_summary (c : Consts) (pd pd1 : PollData) (f : Nat) (ev : List Event)
    (h : IOHandler.postSwitchFunc c f pd = Res.ret (pd1, ev)) :
    pd1.closing = pd.closing ∧ (∀ g, suspendCount ev g = 0) ∧
      ((ev = [Event.resume f] ∧ (pd1.rut = pd.rut ∨ pd1.rut = 0) ∧
          (pd1.wut = pd.wut ∨ pd1.wut = 0)) ∨
        ((∀ g, answerCount ev g = 0) ∧
          ((pd1.rut = f ∧ pd.rut = 0 ∧ pd1.wut = pd.wut) ∨
            (pd1.wut = f ∧ pd.wut = 0 ∧ pd1.rut = pd.rut) ∨
            (pd1.rut = pd.rut ∧ pd1.wut = pd.wut)))) := by
  obtain ⟨fd, op, cl, ib, rut, wut⟩ := pd
  unfold IOHandler.postSwitchFunc at h
  simp only [PollData.getSlot, PollData.setSlot, nullptr] at h
  split_ifs at h <;> simp only [Res.ret.injEq, Prod.mk.injEq] at h <;>
    obtain ⟨rfl, rfl⟩ := h <;> simp_all [suspendCount, answerCount]

/-- A requested slot holds no fiber after `unblock`. -/
theorem slotAfterEvent_not_waiting (c : Consts) (hc : c.WF) (v : Nat) :
    ¬ slotAfterEvent c v > c.POLL_WAIT := by
  obtain ⟨h0, h1, -⟩ := hc
  unfold slotAfterEvent nullptr
  split_ifs <;> omega

theorem slotAfterEvent_cases (c : Consts) (v : Nat) :
    slotAfterEvent c v = c.POLL_READY ∨ slotAfterEvent c v = 0 ∨ slotAfterEvent c v = v := by
  unfold slotAfterEvent nullptr
  split_ifs <;> simp

theorem mem_takenOut (c : Consts) (pd : PollData) (flag g : Nat)
    (h : g ∈ takenOut c pd flag) :
    (g = pd.rut ∧ flag &&& c.UT_IOREAD ≠ 0 ∧ pd.rut > c.POLL_WAIT) ∨
      (g = pd.wut ∧ flag &&& c.UT_IOWRITE ≠ 0 ∧ pd.wut > c.POLL_WAIT) := by
  unfold takenOut at h
  rw [List.mem_append] at h
  rcases h with h | h
  · left
    split_ifs at h with hh
    · simp only [List.mem_singleton] at h
      exact ⟨h, hh⟩
    · simp at h
  · right
    split_ifs at h with hh
    · simp only [List.mem_singleton] at h
      exact ⟨h, hh⟩
    · simp at h

theorem count_takenOut_le (c : Consts) (pd : PollData) (flag g : Nat)
    (hd : pd.rut > c.POLL_WAIT → pd.rut ≠ pd.wut) :
    (takenOut c pd flag).count g ≤ 1 := by
  unfold takenOut
  by_cases h1 : flag &&& c.UT_IOREAD ≠ 0 ∧ pd.rut > c.POLL_WAIT <;>
    by_cases h2 : flag &&& c.UT_IOWRITE ≠ 0 ∧ pd.wut > c.POLL_WAIT
  · rw [if_pos h1, if_pos h2]
    have := hd h1.2
    by_cases e1 : pd.rut = g <;> by_cases e2 : pd.wut = g <;>
      simp [List.count_cons, e1, e2]
    exact this (e1.trans e2.symm)
  · rw [if_pos h1, if_neg h2]
    by_cases e1 : pd.rut = g <;> simp [List.count_cons, e1]
  · rw [if_neg h1, if_pos h2]
    by_cases e2 : pd.wut = g <;> simp [List.count_cons, e2]
  · rw [if_neg h1, if_neg h2]
    simp

/-- Both `unblock` and `unblockBulk` keep the invariant: they answer each fiber they take
out of a slot once. -/
theorem Inv.answer_step (c : Consts) (hc : c.WF) (s : Sys) (hI : Inv c s) (flag : Nat)
    (io1 : IOHandler) (ev : List Event)
    (hs : ∀ g, suspendCount ev g = 0)
    (ha : ∀ g, answerCount ev g = (takenOut c s.pd flag).count g) :
    Inv c { s with io := io1, pd := (IOHandler.unblock c s.pd flag).1,
                   trace := s.trace ++ ev } := by
  have hcl := hI.notClosing
  have hpd := unblock_eq c s.pd flag hcl
  have hle := count_takenOut_le c s.pd flag
  have hnw := slotAfterEvent_not_waiting c hc
  obtain ⟨h0, h1, -⟩ := hc
  constructor
  · simp only [hpd]; exact hcl
  · intro g
    simp only [answerCount_append, suspendCount_append, hs, ha]
    have h1 := hle g hI.distinct
    have h2 := hI.answered_le g
    by_cases hz : (takenOut c s.pd flag).count g = 0
    · omega
    · have hm : g ∈ takenOut c s.pd flag := List.count_pos_iff.mp (Nat.pos_of_ne_zero hz)
      rcases mem_takenOut c s.pd flag g hm with ⟨rfl, -, hv⟩ | ⟨rfl, -, hv⟩
      · have := (hI.rslot hv).1; omega
      · have := (hI.wslot hv).1; omega
  · intro g hg
    simp only [answerCount_append, suspendCount_append, hs, ha]
    have h2 := hI.pending_open g hg
    have hz : (takenOut c s.pd flag).count g = 0 := by
      rw [List.count_eq_zero]
      intro hm
      rcases mem_takenOut c s.pd flag g hm with ⟨rfl, -, hv⟩ | ⟨rfl, -, hv⟩
      · exact (hI.rslot hv).2 hg
      · exact (hI.wslot hv).2 hg
    omega
  · exact hI.pending_nodup
  · simp only [hpd]
    intro hv
    by_cases hR : flag &&& c.UT_IOREAD ≠ 0
    · rw [if_pos hR] at hv; exact absurd hv (hnw _)
    · rw [if_neg hR] at hv ⊢
      simp only [answerCount_append, suspendCount_append, hs, ha]
      have hz : (takenOut c s.pd flag).count s.pd.rut = 0 := by
        rw [List.count_eq_zero]
        intro hm
        rcases mem_takenOut c s.pd flag _ hm with ⟨-, hr, -⟩ | ⟨he, -, -⟩
        · exact hR hr
        · exact hI.distinct hv he
      have := hI.rslot hv
      exact ⟨by omega, this.2⟩
  · simp only [hpd]
    intro hv
    by_cases hW : flag &&& c.UT_IOWRITE ≠ 0
    · rw [if_pos hW] at hv; exact absurd hv (hnw _)
    · rw [if_neg hW] at hv ⊢
      simp only [answerCount_append, suspendCount_append, hs, ha]
      have hz : (takenOut c s.pd flag).count s.pd.wut = 0 := by
        rw [List.count_eq_zero]
        intro hm
        rcases mem_takenOut c s.pd flag _ hm with ⟨he, -, hr⟩ | ⟨-, hw, -⟩
        · exact hI.distinct hr he.symm
        · exact hW hw
      have := hI.wslot hv
      exact ⟨by omega, this.2⟩
  · simp only [hpd]
    intro hv
    by_cases hR : flag &&& c.UT_IOREAD ≠ 0
    · rw [if_pos hR] at hv; exact absurd hv (hnw _)
    · rw [if_neg hR] at hv ⊢
      by_cases hW : flag &&& c.UT_IOWRITE ≠ 0
      · rw [if_pos hW]
        rcases slotAfterEvent_cases c s.pd.wut with e | e | e <;> rw [e]
        · omega
        · omega
        · exact hI.distinct hv
      · rw [if_neg hW]; exact hI.distinct hv

theorem Inv.block_step (c : Consts) (s : Sys) (hI : Inv c s) (f : Nat) (isRead : Bool)
    (openRes : Int) (pd1 : PollData) (ev : List Event)
    (hg : suspendCount s.trace f ≤ answerCount s.trace f)
    (h : IOHandler.block c s.pd isRead f openRes = Res.ret (pd1, ev)) :
    Inv c { s with pd := pd1, trace := s.trace ++ ev,
                   pending := if Event.suspend f ∈ ev then s.pending ++ [f] else s.pending } := by
  obtain ⟨hcl, hans, hr, hw, hsus⟩ := block_summary c s.pd pd1 isRead f openRes ev h
  have hfp : f ∉ s.pending := fun hm => by have := hI.pending_open f hm; omega
  have hmem : ∀ g, g ∈ (if Event.suspend f ∈ ev then s.pending ++ [f] else s.pending) →
      g ∈ s.pending ∨ (g = f ∧ Event.suspend f ∈ ev) := by
    intro g hm
    split_ifs at hm with hh
    · rw [List.mem_append, List.mem_singleton] at hm
      exact hm.imp id (fun e => ⟨e, hh⟩)
    · exact Or.inl hm
  have hmono : ∀ g, suspendCount s.trace g ≤ suspendCount (s.trace ++ ev) g := by
    intro g; rw [suspendCount_append]; omega
  have hsame : ∀ g, answerCount (s.trace ++ ev) g = answerCount s.trace g := by
    intro g; rw [answerCount_append, hans]; rfl
  have hslot : ∀ v, v > c.POLL_WAIT →
      (answerCount s.trace v < suspendCount s.trace v ∧ v ∉ s.pending) →
      answerCount (s.trace ++ ev) v < suspendCount (s.trace ++ ev) v ∧
        v ∉ (if Event.suspend f ∈ ev then s.pending ++ [f] else s.pending) := by
    intro v _ hv
    refine ⟨by have := hmono v; rw [hsame]; omega, fun hm => ?_⟩
    rcases hmem v hm with hm | ⟨rfl, -⟩
    · exact hv.2 hm
    · omega
  constructor
  · exact hcl.trans hI.notClosing
  · intro g
    show answerCount (s.trace ++ ev) g ≤ suspendCount (s.trace ++ ev) g
    have := hI.answered_le g
    have := hmono g
    rw [hsame]; omega
  · intro g hm
    show answerCount (s.trace ++ ev) g < suspendCount (s.trace ++ ev) g
    rw [hsame]
    rcases hmem g hm with hm | ⟨rfl, hm⟩
    · have := hI.pending_open g hm
      have := hmono g
      omega
    · rcases hsus with ⟨-, hc1⟩ | ⟨hn, -⟩
      · have := hI.answered_le g
        rw [suspendCount_append, hc1 g, if_pos rfl]
        omega
      · exact absurd hm hn
  · show (if Event.suspend f ∈ ev then s.pending ++ [f] else s.pending).Nodup
    split_ifs
    · rw [List.nodup_append]
      refine ⟨hI.pending_nodup, List.nodup_singleton f, ?_⟩
      intro a ha hb
      rw [List.mem_singleton] at hb
      subst hb
      exact hfp ha
    · exact hI.pending_nodup
  · show pd1.rut > c.POLL_WAIT → _
    intro hv
    rcases hr with e | e
    · rw [e] at hv ⊢
      exact hslot _ hv (hI.rslot hv)
    · omega
  · show pd1.wut > c.POLL_WAIT → _
    intro hv
    rcases hw with e | e
    · rw [e] at hv ⊢
      exact hslot _ hv (hI.wslot hv)
    · omega
  · show pd1.rut > c.POLL_WAIT → pd1.rut ≠ pd1.wut
    intro hv
    rcases hr with e | e
    · rw [e] at hv ⊢
      rcases hw with e2 | e2 <;> rw [e2]
      · exact hI.distinct hv
      · omega
    · omega

theorem Inv.postSwitch_step (c : Consts) (s : Sys) (hI : Inv c s) (f : Nat)
    (pd1 : PollData) (ev : List Event) (hf : f ∈ s.pending)
    (h : IOHandler.postSwitchFunc c f s.pd = Res.ret (pd1, ev)) :
    Inv c { s with pd := pd1, trace := s.trace ++ ev, pending := s.pending.erase f } := by
  obtain ⟨hcl, hsus, hcase⟩ := postSwitchFunc_summary c s.pd pd1 f ev h
  have hnd := hI.pending_nodup
  have hfo := hI.pending_open f hf
  have hsame : ∀ g, suspendCount (s.trace ++ ev) g = suspendCount s.trace g := by
    intro g; rw [suspendCount_append, hsus]; rfl
  have hsub : ∀ g, g ∈ s.pending.erase f → g ∈ s.pending ∧ g ≠ f := by
    intro g hm
    exact ⟨List.mem_of_mem_erase hm, fun e => by
      subst e; exact (List.Nodup.not_mem_erase hnd) hm⟩
  rcases hcase with ⟨rfl, hr, hw⟩ | ⟨hans, hslots⟩
  · have hres : ∀ g, answerCount (s.trace ++ [Event.resume f]) g
        = answerCount s.trace g + if g = f then 1 else 0 := by
      intro g
      rw [answerCount_append]
      by_cases hg : g = f
      · subst hg; simp [answerCount]
      · have hg2 : ¬ f = g := fun e => hg e.symm
        simp [answerCount, List.count_cons, hg, hg2]
    have hslot : ∀ v, v > c.POLL_WAIT →
        (answerCount s.trace v < suspendCount s.trace v ∧ v ∉ s.pending) →
        answerCount (s.trace ++ [Event.resume f]) v
            < suspendCount (s.trace ++ [Event.resume f]) v ∧
          v ∉ s.pending.erase f := by
      intro v _ hv
      have hvf : v ≠ f := fun e => hv.2 (e ▸ hf)
      rw [hres, hsame, if_neg hvf]
      exact ⟨by omega, fun hm => hv.2 (hsub v hm).1⟩
    constructor
    · exact hcl.trans hI.notClosing
    · intro g
      show answerCount (s.trace ++ [Event.resume f]) g ≤ suspendCount (s.trace ++ _) g
      rw [hres, hsame]
      have := hI.answered_le g
      split_ifs with hg
      · subst hg; omega
      · omega
    · intro g hm
      show answerCount (s.trace ++ [Event.resume f]) g < suspendCount (s.trace ++ _) g
      obtain ⟨hm1, hm2⟩ := hsub g hm
      rw [hres, hsame, if_neg hm2]
      have := hI.pending_open g hm1
      omega
    · exact hnd.erase f
    · show pd1.rut > c.POLL_WAIT → _
      intro hv
      rcases hr with e | e
      · rw [e] at hv ⊢
        exact hslot _ hv (hI.rslot hv)
      · omega
    · show pd1.wut > c.POLL_WAIT → _
      intro hv
      rcases hw with e | e
      · rw [e] at hv ⊢
        exact hslot _ hv (hI.wslot hv)
      · omega
    · show pd1.rut > c.POLL_WAIT → pd1.rut ≠ pd1.wut
      intro hv
      rcases hr with e | e
      · rw [e] at hv ⊢
        rcases hw with e2 | e2 <;> rw [e2]
        · exact hI.distinct hv
        · omega
      · omega
  · have hasame : ∀ g, answerCount (s.trace ++ ev) g = answerCount s.trace g := by
      intro g; rw [answerCount_append, hans]; rfl
    have hslot : ∀ v, (answerCount s.trace v < suspendCount s.trace v ∧ v ∉ s.pending) →
        answerCount (s.trace ++ ev) v < suspendCount (s.trace ++ ev) v ∧
          v ∉ s.pending.erase f := by
      intro v hv
      rw [hasame, hsame]
      exact ⟨hv.1, fun hm => hv.2 (hsub v hm).1⟩
    have hfslot : answerCount (s.trace ++ ev) f < suspendCount (s.trace ++ ev) f ∧
        f ∉ s.pending.erase f := by
      rw [hasame, hsame]
      exact ⟨hfo, List.Nodup.not_mem_erase hnd⟩
    constructor
    · exact hcl.trans hI.notClosing
    · intro g
      show answerCount (s.trace ++ ev) g ≤ suspendCount (s.trace ++ ev) g
      rw [hasame, hsame]
      exact hI.answered_le g
    · intro g hm
      show answerCount (s.trace ++ ev) g < suspendCount (s.trace ++ ev) g
      rw [hasame, hsame]
      exact hI.pending_open g (hsub g hm).1
    · exact hnd.erase f
    · show pd1.rut > c.POLL_WAIT → _
      intro hv
      rcases hslots with ⟨e, -, -⟩ | ⟨-, -, e⟩ | ⟨e, -⟩
      · rw [e]; exact hfslot
      · rw [e] at hv ⊢; exact hslot _ (hI.rslot hv)
      · rw [e] at hv ⊢; exact hslot _ (hI.rslot hv)
    · show pd1.wut > c.POLL_WAIT → _
      intro hv
      rcases hslots with ⟨-, -, e⟩ | ⟨e, -, -⟩ | ⟨-, e⟩
      · rw [e] at hv ⊢; exact hslot _ (hI.wslot hv)
      · rw [e]; exact hfslot
      · rw [e] at hv ⊢; exact hslot _ (hI.wslot hv)
    · show pd1.rut > c.POLL_WAIT → pd1.rut ≠ pd1.wut
      intro hv
      rcases hslots with ⟨e1, -, e2⟩ | ⟨e1, e0, e2⟩ | ⟨e1, e2⟩
      · rw [e1, e2]
        intro e
        by_cases hwv : s.pd.wut > c.POLL_WAIT
        · exact (hI.wslot hwv).2 (e ▸ hf)
        · rw [e1] at hv; omega
      · rw [e1, e2]
        rw [e2] at hv
        intro e
        exact (hI.rslot hv).2 (e ▸ hf)
      · rw [e1, e2]
        rw [e1] at hv
        exact hI.distinct hv

theorem unblock_events_takenOut (c : Consts) (pd : PollData) (flag : Nat)
    (hcl : pd.closing = false) :
    (IOHandler.unblock c pd flag).2 = (takenOut c pd flag).map Event.resume := by
  rw [unblock_eq c pd flag hcl]
  unfold takenOut
  split_ifs <;> rfl

theorem counts_map_resume (l : List Nat) (g : Nat) :
    suspendCount (l.map Event.resume) g = 0 ∧ answerCount (l.map Event.resume) g = l.count g := by
  induction l with
  | nil => simp [suspendCount, answerCount]
  | cons a l ih =>
    obtain ⟨ih1, ih2⟩ := ih
    simp only [suspendCount, answerCount] at ih1 ih2 ⊢
    by_cases e : a = g
    · subst e
      simp [List.count_cons, ih1, ← ih2]
      omega
    · simp [List.count_cons, ih1, ← ih2, e]

theorem counts_bulk (l : List Nat) (g : Nat) :
    suspendCount (l.flatMap (fun f => [Event.markReady f, Event.bulkPush f])) g = 0 ∧
      answerCount (l.flatMap (fun f => [Event.markReady f, Event.bulkPush f])) g
        = l.count g := by
  induction l with
  | nil => simp [suspendCount, answerCount]
  | cons a l ih =>
    obtain ⟨ih1, ih2⟩ := ih
    simp only [suspendCount, answerCount] at ih1 ih2 ⊢
    by_cases e : a = g
    · subst e
      simp [List.count_cons, ih1, ← ih2]
      omega
    · simp [List.count_cons, ih1, ← ih2, e]

/-- Every atomic step keeps the invariant. -/
theorem Inv.step (c : Consts) (hc : c.WF) (s s1 : Sys) (st : Step) (hI : Inv c s)
    (h : s.step c st = some s1) : Inv c s1 := by
  cases st with
  | blockEntry f isRead openRes =>
    simp only [Sys.step] at h
    split_ifs at h with hg
    split at h
    · simp only [Option.some.injEq] at h
      subst h
      exact Inv.block_step c s hI f isRead openRes _ _ hg.2 (by assumption)
    · simp at h
  | postSwitch f =>
    simp only [Sys.step] at h
    split_ifs at h with hg
    split at h
    · simp only [Option.some.injEq] at h
      subst h
      exact Inv.postSwitch_step c s hI f _ _ hg (by assumption)
    · simp at h
  | unblock flag =>
    simp only [Sys.step, Option.some.injEq] at h
    subst h
    have hev := unblock_events_takenOut c s.pd flag hI.notClosing
    rw [hev]
    exact Inv.answer_step c hc s hI flag s.io _
      (fun g => (counts_map_resume _ g).1) (fun g => (counts_map_resume _ g).2)
  | unblockBulk flag =>
    simp only [Sys.step, Option.some.injEq] at h
    subst h
    rw [unblockBulk_eq c s.io s.pd flag hI.notClosing]
    exact Inv.answer_step c hc s hI flag _ _
      (fun g => (counts_bulk _ g).1) (fun g => (counts_bulk _ g).2)

/-- The invariant holds after every finite interleaving that starts from a state where it
holds. -/
theorem Inv.run (c : Consts) (hc : c.WF) (steps : List Step) :
    ∀ s s1, Inv c s → Sys.run c s steps = some s1 → Inv c s1 := by
  induction steps with
  | nil =>
    intro s s1 hI h
    simp only [Sys.run, Option.some.injEq] at h
    exact h ▸ hI
  | cons st rest ih =>
    intro s s1 hI h
    simp only [Sys.run] at h
    cases hst : s.step c st with
    | none => rw [hst] at h; simp at h
    | some s2 =>
      rw [hst] at h
      exact ih s2 s1 (Inv.step c hc s s2 st hI hst) h

theorem submissions_append (a b : List Event) :
    submissions (a ++ b) = submissions a ++ submissions b := by
  simp [submissions]

theorem submissions_bulk (l : List Nat) :
    submissions (l.flatMap (fun f => [Event.markReady f, Event.bulkPush f])) = [] := by
  induction l with
  | nil => rfl
  | cons a l ih =>
    simp only [List.flatMap_cons, submissions_append, ih]
    rfl

theorem PollReadyBulk_notLast (c : Consts) (io : IOHandler) (pd : PollData) (flag : Nat) :
    IOHandler.PollReadyBulk c io pd flag false = IOHandler.unblockBulk c io pd flag := by
  simp [IOHandler.PollReadyBulk]

/-- The whole pass, for any bulk state whose counter is the length of its batch. -/
theorem bulkPass_eq (c : Consts) (items : List (PollData × Nat)) :
    ∀ io : IOHandler, io.bulkCounter = io.bulkQueue.length → items ≠ [] →
      (∀ p ∈ items, p.1.closing = false) →
      (bulkPass c io items).1 = { bulkCounter := 0, bulkQueue := [] } ∧
        (bulkPass c io items).2.1 = items.map (fun p => (IOHandler.unblock c p.1 p.2).1) ∧
        submissions (bulkPass c io items).2.2 =
          (if io.bulkQueue ++ items.flatMap (fun p => takenOut c p.1 p.2) = [] then []
           else [Event.schedule (io.bulkQueue ++ items.flatMap (fun p => takenOut c p.1 p.2))
              (io.bulkCounter + (items.flatMap (fun p => takenOut c p.1 p.2)).length)]) := by
  induction items with
  | nil => intro io _ h; exact absurd rfl h
  | cons p rest ih =>
    intro io hio _ hcl
    have hp : p.1.closing = false := hcl p (List.mem_cons_self _ _)
    cases rest with
    | nil =>
      obtain ⟨n, q⟩ := io
      simp only at hio
      subst hio
      simp only [bulkPass, IOHandler.PollReadyBulk, unblockBulk_eq c _ p.1 p.2 hp,
        Scheduler.schedule, List.map_cons, List.map_nil, List.flatMap_cons, List.flatMap_nil,
        List.append_nil]
      by_cases hz : q ++ takenOut c p.1 p.2 = []
      · have h1 : q = [] := (List.append_eq_nil.mp hz).1
        have h2 : takenOut c p.1 p.2 = [] := (List.append_eq_nil.mp hz).2
        simp [h1, h2, submissions]
      · have hpos : q.length + (takenOut c p.1 p.2).length > 0 := by
          rw [← List.length_append]
          exact List.length_pos.mpr hz
        simp only [hpos, and_self, if_true, hz, if_false, submissions_append, submissions_bulk,
          List.nil_append, true_and]
        rfl
    | cons q rest =>
      have hrec := ih (IOHandler.unblockBulk c io p.1 p.2).1
        (by rw [unblockBulk_eq c io p.1 p.2 hp]; simp [hio])
        (by simp) (fun x hx => hcl x (List.mem_cons_of_mem _ hx))
      obtain ⟨h1, h2, h3⟩ := hrec
      simp only [bulkPass, PollReadyBulk_notLast]
      refine ⟨h1, ?_, ?_⟩
      · rw [h2, unblockBulk_eq c io p.1 p.2 hp]
        simp
      · rw [submissions_append, h3, unblockBulk_eq c io p.1 p.2 hp]
        simp only [submissions_bulk, List.nil_append, List.flatMap_cons, List.append_assoc,
          List.length_append, Nat.add_assoc]

/-- A block on a Ready slot returns without suspending when the record is opened or its
registration succeeds. -/
theorem block_ready_returns (c : Consts) (pd : PollData) (isRead : Bool) (cur : Nat)
    (openRes : Int) (h : pd.getSlot isRead = c.POLL_READY)
    (ho : pd.opened = true ∨ (pd.fd > 0 ∧ openRes = 0)) :
    returnsWithoutSuspending (IOHandler.block c pd isRead cur openRes) = true := by
  rw [block_eq]
  have c1 : ¬ (pd.opened = false ∧ ¬ (pd.fd > 0)) := by
    rintro ⟨a, b⟩
    rcases ho with ho | ho
    · rw [a] at ho; exact Bool.false_ne_true ho
    · exact b ho.1
  have c2 : ¬ (pd.opened = false ∧ openRes ≠ 0) := by
    rintro ⟨a, b⟩
    rcases ho with ho | ho
    · rw [a] at ho; exact Bool.false_ne_true ho
    · exact b ho.2
  rw [if_neg c1, if_neg c2, if_pos h]
  cases pd.opened <;> rfl

theorem resumedFibers_map_resume (l : List Nat) :
    resumedFibers (l.map Event.resume) = l := by
  induction l with
  | nil => rfl
  | cons a l ih =>
    simp only [resumedFibers] at ih
    simp [resumedFibers, Event.resumedFiber, ih]

theorem fibers_of_bulk_events (l : List Nat) :
    batchedFibers (l.flatMap (fun f => [Event.markReady f, Event.bulkPush f])) = l ∧
      readiedFibers (l.flatMap (fun f => [Event.markReady f, Event.bulkPush f])) = l ∧
      resumedFibers (l.flatMap (fun f => [Event.markReady f, Event.bulkPush f])) = [] := by
  induction l with
  | nil => exact ⟨rfl, rfl, rfl⟩
  | cons a l ih =>
    obtain ⟨h1, h2, h3⟩ := ih
    simp only [batchedFibers, readiedFibers, resumedFibers] at h1 h2 h3
    simp [batchedFibers, readiedFibers, resumedFibers, Event.batchedFiber,
      Event.readiedFiber, Event.resumedFiber, h1, h2, h3]

/-- The refinement as an equation, for every record, closing or not. -/
theorem unblockBulk_eq_spec (c : Consts) (io : IOHandler) (pd : PollData) (flag : Nat) :
    IOHandler.unblockBulk c io pd flag = unblockBulkSpec c io pd flag := by
  cases hcl : pd.closing
  · rw [unblockBulk_eq c io pd flag hcl, unblockBulkSpec,
      unblock_events_takenOut c pd flag hcl, resumedFibers_map_resume]
  · obtain ⟨n, q⟩ := io
    simp [IOHandler.unblockBulk, unblockBulkSpec, IOHandler.unblock, hcl, resumedFibers]

/-- The whole of `close`, for every record: since `flag` is `0` when it is tested, `unblock`
is not called. -/
theorem close_eq (c : Consts) (pd : PollData) (closeRes : Int) :
    IOHandler.close c pd closeRes
      = (pd.reset, [Event.backendClose pd.fd, Event.resetPD, Event.poolPush], closeRes) := by
  simp [IOHandler.close, PollData.reset]

/-- The Ready sentinel stays where it is under a readiness event. -/
theorem slotAfterEvent_ready (c : Consts) (hc : c.WF) :
    slotAfterEvent c c.POLL_READY = c.POLL_READY := by
  obtain ⟨h0, h1, -⟩ := hc
  unfold slotAfterEvent nullptr
  have e1 : ¬ (c.POLL_READY = 0 ∨ c.POLL_READY = c.POLL_WAIT) := by omega
  have e2 : ¬ c.POLL_READY > c.POLL_WAIT := by omega
  rw [if_neg e1, if_neg e2]

/-- A readiness event on a slot that holds no fiber takes nobody out, and a second one
changes nothing more. -/
theorem slotAfterEvent_idem (c : Consts) (hc : c.WF) (v : Nat) (hv : ¬ v > c.POLL_WAIT) :
    slotAfterEvent c (slotAfterEvent c v) = slotAfterEvent c v := by
  by_cases h : v = nullptr ∨ v = c.POLL_WAIT
  · have e : slotAfterEvent c v = c.POLL_READY := by unfold slotAfterEvent; rw [if_pos h]
    rw [e, slotAfterEvent_ready c hc]
  · have e : slotAfterEvent c v = v := by unfold slotAfterEvent; rw [if_neg h, if_neg hv]
    rw [e, e]

theorem pushedSince_append (a b : List Event) :
    ∀ n, pushedSince n (a ++ b) = pushedSince (pushedSince n a) b := by
  induction a with
  | nil => intro n; rfl
  | cons e a ih =>
    intro n
    cases e <;> simp only [List.cons_append, pushedSince] <;> exact ih _

theorem pushedSince_bulk (l : List Nat) :
    ∀ n, pushedSince n (l.flatMap (fun f => [Event.markReady f, Event.bulkPush f]))
      = n + l.length := by
  induction l with
  | nil => intro n; rfl
  | cons a l ih =>
    intro n
    have e : (a :: l).flatMap (fun f => [Event.markReady f, Event.bulkPush f])
        = Event.markReady a :: Event.bulkPush a
            :: l.flatMap (fun f => [Event.markReady f, Event.bulkPush f]) := rfl
    rw [e]
    simp only [pushedSince, List.length_cons]
    rw [ih]
    omega

theorem submittedFibers_append (a b : List Event) :
    submittedFibers (a ++ b) = submittedFibers a ++ submittedFibers b := by
  induction a with
  | nil => rfl
  | cons e a ih =>
    cases e <;> simp only [List.cons_append, submittedFibers, List.append_assoc] <;>
      first | exact ih | exact congrArg _ ih

theorem submittedFibers_bulk (l : List Nat) :
    submittedFibers (l.flatMap (fun f => [Event.markReady f, Event.bulkPush f])) = [] := by
  induction l with
  | nil => rfl
  | cons a l ih =>
    have e : (a :: l).flatMap (fun f => [Event.markReady f, Event.bulkPush f])
        = Event.markReady a :: Event.bulkPush a
            :: l.flatMap (fun f => [Event.markReady f, Event.bulkPush f]) := rfl
    rw [e]
    simp only [submittedFibers]
    exact ih

theorem batchedFibers_append (a b : List Event) :
    batchedFibers (a ++ b) = batchedFibers a ++ batchedFibers b := by
  simp [batchedFibers]

theorem not_schedule_mem_bulk (l : List Nat) (q : List Nat) (n : Nat) :
    Event.schedule q n ∉ l.flatMap (fun f => [Event.markReady f, Event.bulkPush f]) := by
  simp [List.mem_flatMap]

/-- What one call of `PollReadyBulk` does to the bulk state and which events it emits, for a
bulk state whose counter is the length of its batch. -/
theorem PollReadyBulk_step (c : Consts) (io : IOHandler) (pd : PollData) (flag : Nat)
    (isLast : Bool) (hio : io.bulkCounter = io.bulkQueue.length) :
    (IOHandler.PollReadyBulk c io pd flag isLast).1.bulkCounter
        = (IOHandler.PollReadyBulk c io pd flag isLast).1.bulkQueue.length ∧
      (IOHandler.PollReadyBulk c io pd flag isLast).1.bulkCounter
        = pushedSince io.bulkCounter (IOHandler.PollReadyBulk c io pd flag isLast).2.2 ∧
      submittedFibers (IOHandler.PollReadyBulk c io pd flag isLast).2.2
          ++ (IOHandler.PollReadyBulk c io pd flag isLast).1.bulkQueue
        = io.bulkQueue ++ batchedFibers (IOHandler.PollReadyBulk c io pd flag isLast).2.2 ∧
      (∀ q n, Event.schedule q n ∈ (IOHandler.PollReadyBulk c io pd flag isLast).2.2 →
        0 < n ∧ n = q.length) := by
  have hspec := unblockBulk_eq_spec c io pd flag
  have hfib := fibers_of_bulk_events (resumedFibers (IOHandler.unblock c pd flag).2)
  have hnot := not_schedule_mem_bulk (resumedFibers (IOHandler.unblock c pd flag).2)
  unfold unblockBulkSpec at hspec
  simp only at hspec
  generalize resumedFibers (IOHandler.unblock c pd flag).2 = l at hspec hfib hnot
  unfold IOHandler.PollReadyBulk
  simp only [hspec, Scheduler.schedule]
  by_cases hl : isLast = true ∧ io.bulkCounter + l.length > 0
  · rw [if_pos hl]
    refine ⟨rfl, ?_, ?_, ?_⟩
    · show 0 = _
      rw [pushedSince_append, pushedSince_bulk]
      rfl
    · show submittedFibers _ ++ [] = _
      rw [submittedFibers_append, submittedFibers_bulk, batchedFibers_append, hfib.1]
      simp [submittedFibers, batchedFibers, Event.batchedFiber]
    · intro q n hmem
      rw [List.mem_append, List.mem_singleton] at hmem
      rcases hmem with hmem | hmem
      · exact absurd hmem (hnot q n)
      · simp only [Event.schedule.injEq] at hmem
        obtain ⟨rfl, rfl⟩ := hmem
        refine ⟨hl.2, ?_⟩
        rw [List.length_append, hio]
  · rw [if_neg hl]
    refine ⟨?_, ?_, ?_, ?_⟩
    · show io.bulkCounter + l.length = (io.bulkQueue ++ l).length
      rw [List.length_append, hio]
    · show io.bulkCounter + l.length = _
      rw [pushedSince_bulk]
    · show submittedFibers _ ++ (io.bulkQueue ++ l) = _
      rw [submittedFibers_bulk, hfib.1]
      rfl
    · intro q n hmem
      exact absurd hmem (hnot q n)

/-- The same along a sequence of calls. -/
theorem bulkRun_inv (c : Consts) (calls : List (PollData × Nat × Bool)) :
    ∀ io : IOHandler, io.bulkCounter = io.bulkQueue.length →
      (bulkRun c io calls).1.bulkCounter = (bulkRun c io calls).1.bulkQueue.length ∧
        (bulkRun c io calls).1.bulkCounter = pushedSince io.bulkCounter (bulkRun c io calls).2 ∧
        submittedFibers (bulkRun c io calls).2 ++ (bulkRun c io calls).1.bulkQueue
          = io.bulkQueue ++ batchedFibers (bulkRun c io calls).2 ∧
        (∀ q n, Event.schedule q n ∈ (bulkRun c io calls).2 → 0 < n ∧ n = q.length) := by
  induction calls with
  | nil =>
    intro io hio
    refine ⟨hio, rfl, ?_, ?_⟩
    · simp [bulkRun, submittedFibers, batchedFibers]
    · intro q n hmem
      simp [bulkRun] at hmem
  | cons call rest ih =>
    intro io hio
    obtain ⟨s1, s2, s3, s4⟩ := PollReadyBulk_step c io call.1 call.2.1 call.2.2 hio
    obtain ⟨r1, r2, r3, r4⟩ := ih _ s1
    simp only [bulkRun]
    refine ⟨r1, ?_, ?_, ?_⟩
    · rw [pushedSince_append, ← s2]
      exact r2
    · rw [submittedFibers_append, batchedFibers_append, List.append_assoc, r3,
        ← List.append_assoc, s3, List.append_assoc]
    · intro q n hmem
      rw [List.mem_append] at hmem
      rcases hmem with hmem | hmem
      · exact s4 q n hmem
      · exact r4 q n hmem

/-- Why the order of the sentinels matters: with a Ready sentinel above `POLL_WAIT` (here
`POLL_READY = 3`, `POLL_WAIT = 2`) the test `rold > POLL_WAIT` of `unblock` takes a Ready slot
for a waiting fiber and resumes the sentinel. -/
theorem unblock_ready_above_armed :
    IOHandler.unblock ⟨3, 2, 1, 2⟩ ⟨5, true, false, false, 3, 0⟩ 1
      = (⟨5, true, false, false, 0, 0⟩, [Event.resume 3]) := by
  decide

/-! ## The claims -/

/-- C1. Race scenario: on an opened, non-closing record whose slot for the direction is Idle,
`block` by fiber `f`, then `unblock` for that direction, then the post-suspend callback of `f`
all return, emit exactly one suspension of `f` followed by exactly one resume of `f`, and leave
the slot Idle (the record is as before, with `isBlockingOnRead` set to the direction). This
holds for the read direction (`isRead = true`) and for the write direction. -/
theorem race_resumes_exactly_once (c : Consts) (hc : c.WF) (pd : PollData) (isRead : Bool)
    (f : Nat) (openRes : Int) (hf : validUT c f) (hop : pd.opened = true)
    (hcl : pd.closing = false) (hidle : slotState c (pd.getSlot isRead) = Slot.Idle) :
    ∃ pd3 ev, raceScenario c pd isRead f openRes = Res.ret (pd3, ev) ∧
      ev = [Event.suspend f, Event.resume f] ∧
      ev.count (Event.resume f) = 1 ∧
      slotState c (pd3.getSlot isRead) = Slot.Idle ∧
      pd3 = { pd with isBlockingOnRead := isRead } := by
  obtain ⟨h0, h1, hr, hw, hrw⟩ := hc
  rw [slotState_idle_iff] at hidle
  have hf0 : f ≠ 0 := by unfold validUT at hf; omega
  have hwr : c.UT_IOWRITE &&& c.UT_IOREAD = 0 := by rw [Nat.land_comm]; exact hrw
  refine ⟨{ pd with isBlockingOnRead := isRead }, [Event.suspend f, Event.resume f],
    ?_, rfl, ?_, ?_, rfl⟩
  · obtain ⟨fd, op, cl, ib, rut, wut⟩ := pd
    cases isRead <;>
      simp_all [raceScenario, IOHandler.block, IOHandler.unblock, IOHandler.postSwitchFunc,
        PollData.getSlot, PollData.setSlot, dirFlag, nullptr,
        Nat.ne_of_lt h0, Nat.ne_of_gt h0]
  · simp
  · rw [slotState_idle_iff]
    cases isRead <;> simpa [PollData.getSlot] using hidle

/-- C1 at an opened record with both slots Idle, read direction, fiber `100`. -/
theorem race_resumes_exactly_once_witness :
    stdConsts.WF ∧ validUT stdConsts 100 ∧
    ∃ pd3 ev, raceScenario stdConsts ⟨5, true, false, false, 0, 0⟩ true 100 0
        = Res.ret (pd3, ev) ∧
      ev = [Event.suspend 100, Event.resume 100] ∧
      ev.count (Event.resume 100) = 1 ∧
      slotState stdConsts (pd3.getSlot true) = Slot.Idle ∧
      pd3 = { (⟨5, true, false, false, 0, 0⟩ : PollData) with isBlockingOnRead := true } :=
  ⟨by decide, by decide,
    race_resumes_exactly_once stdConsts (by decide) ⟨5, true, false, false, 0, 0⟩ true 100 0
      (by decide) rfl rfl (by decide)⟩

/-- C2 (the code at the failing input). With fiber `100` waiting in the write slot, `close`
calls the backend, resets the record and pushes it to the pool, and resumes nobody: its `flag`
is still `0` when it is tested, so `unblock` is not called and the waiter is dropped by the
reset. -/
theorem close_drops_waiter :
    IOHandler.close stdConsts ⟨5, true, false, false, 0, 100⟩ 0
        = (⟨5, false, false, false, 0, 0⟩,
            [Event.backendClose 5, Event.resetPD, Event.poolPush], 0) ∧
      slotState stdConsts (PollData.mk 5 true false false 0 100).wut = Slot.Waiting 100 ∧
      Event.resume 100 ∉ (IOHandler.close stdConsts ⟨5, true, false, false, 0, 100⟩ 0).2.1 := by
  decide

/-- C3. Never double-resumed. In every finite interleaving of the atomic steps block-entry,
post-suspend callback, `unblock` and `unblockBulk` on one record, starting from a reset record,
where a fiber enters `block` only when each of its earlier suspensions has been answered, no
fiber is resumed or batched more often than it has initiated a suspension, and a fiber held by
a slot has a suspension that has not been answered yet. -/
theorem never_double_resumed (c : Consts) (hc : c.WF) (pd0 : PollData) (steps : List Step)
    (s : Sys) (h : Sys.run c (Sys.init pd0) steps = some s) :
    (∀ f, answerCount s.trace f ≤ suspendCount s.trace f) ∧
      (∀ isRead f, slotState c (s.pd.getSlot isRead) = Slot.Waiting f →
        answerCount s.trace f < suspendCount s.trace f) := by
  have hI := Inv.run c hc steps _ s (Inv.init c pd0) h
  refine ⟨hI.answered_le, ?_⟩
  intro isRead f hs
  rw [slotState_waiting_iff c hc] at hs
  obtain ⟨rfl, hv⟩ := hs
  unfold validUT at hv
  cases isRead
  · exact (hI.wslot hv).1
  · exact (hI.rslot hv).1

/-- C3 at an interleaving in which fiber `100` waits twice and is resumed once so far. -/
theorem never_double_resumed_witness :
    stdConsts.WF ∧
      Sys.run stdConsts (Sys.init ⟨5, false, false, false, 0, 0⟩)
          [Step.blockEntry 100 true 0, Step.unblock 1, Step.postSwitch 100,
           Step.blockEntry 100 true 0, Step.postSwitch 100]
        = some ⟨⟨5, true, false, true, 100, 0⟩, ⟨0, []⟩, [],
            [Event.backendOpen 5, Event.suspend 100, Event.resume 100, Event.suspend 100]⟩ ∧
      ((∀ f, answerCount [Event.backendOpen 5, Event.suspend 100, Event.resume 100,
            Event.suspend 100] f
          ≤ suspendCount [Event.backendOpen 5, Event.suspend 100, Event.resume 100,
            Event.suspend 100] f) ∧
        (∀ isRead f,
          slotState stdConsts ((PollData.mk 5 true false true 100 0).getSlot isRead)
              = Slot.Waiting f →
            answerCount [Event.backendOpen 5, Event.suspend 100, Event.resume 100,
                Event.suspend 100] f
              < suspendCount [Event.backendOpen 5, Event.suspend 100, Event.resume 100,
                Event.suspend 100] f)) :=
  ⟨by decide, by decide,
    never_double_resumed stdConsts (by decide) ⟨5, false, false, false, 0, 0⟩
      [Step.blockEntry 100 true 0, Step.unblock 1, Step.postSwitch 100,
       Step.blockEntry 100 true 0, Step.postSwitch 100]
      ⟨⟨5, true, false, true, 100, 0⟩, ⟨0, []⟩, [],
        [Event.backendOpen 5, Event.suspend 100, Event.resume 100, Event.suspend 100]⟩
      (by decide)⟩

/-- C4. On a non-closing record, `unblock(pd, flag)` sets every requested slot that is
`Waiting f` to Idle and resumes `f`; its events are exactly one resume for each requested slot
that held a waiting fiber, read before write, so nobody else is resumed. When the two slots
hold different values, this is exactly one resume for each such fiber. -/
theorem unblock_resumes_waiting (c : Consts) (hc : c.WF) (pd : PollData) (flag : Nat)
    (hcl : pd.closing = false) :
    (∀ isRead f, flag &&& dirFlag c isRead ≠ 0 →
        slotState c (pd.getSlot isRead) = Slot.Waiting f →
        slotState c ((IOHandler.unblock c pd flag).1.getSlot isRead) = Slot.Idle ∧
          Event.resume f ∈ (IOHandler.unblock c pd flag).2) ∧
      (IOHandler.unblock c pd flag).2 = (waitingIn c pd flag).map Event.resume ∧
      (∀ e ∈ (IOHandler.unblock c pd flag).2, ∃ isRead f, e = Event.resume f ∧
        flag &&& dirFlag c isRead ≠ 0 ∧ slotState c (pd.getSlot isRead) = Slot.Waiting f) ∧
      (pd.rut ≠ pd.wut → ∀ f ∈ waitingIn c pd flag,
        (IOHandler.unblock c pd flag).2.count (Event.resume f) = 1) := by
  have hev := unblock_events c hc pd flag hcl
  have hw := takenOut_eq_waitingIn c hc pd flag
  refine ⟨?_, hev, ?_, ?_⟩
  · intro isRead f hm hs
    rw [slotState_waiting_iff c hc] at hs
    obtain ⟨hv, hf⟩ := hs
    unfold validUT at hf
    rw [slotState_idle_iff, hev, ← hw, unblock_eq c pd flag hcl]
    cases isRead <;> simp only [dirFlag, PollData.getSlot, Bool.false_eq_true, if_false,
      if_true] at hm hv ⊢ <;> subst hv
    · have e1 : ¬ (pd.wut = nullptr ∨ pd.wut = c.POLL_WAIT) := by unfold nullptr; omega
      simp [takenOut, slotAfterEvent, hm, hf, e1]
    · have e1 : ¬ (pd.rut = nullptr ∨ pd.rut = c.POLL_WAIT) := by unfold nullptr; omega
      simp [takenOut, slotAfterEvent, hm, hf, e1]
  · intro e he
    rw [hev, ← hw] at he
    simp only [takenOut, List.map_append, List.mem_append, List.mem_map] at he
    rcases he with ⟨f, hf, rfl⟩ | ⟨f, hf, rfl⟩
    · refine ⟨true, f, rfl, ?_⟩
      split_ifs at hf with h
      · simp only [List.mem_singleton] at hf
        subst hf
        exact ⟨h.1, (slotState_waiting_iff c hc _ _).2 ⟨rfl, h.2⟩⟩
      · simp at hf
    · refine ⟨false, f, rfl, ?_⟩
      split_ifs at hf with h
      · simp only [List.mem_singleton] at hf
        subst hf
        exact ⟨h.1, (slotState_waiting_iff c hc _ _).2 ⟨rfl, h.2⟩⟩
      · simp at hf
  · intro hne f hf
    rw [hev, ← hw]
    rw [← hw] at hf
    unfold takenOut at hf ⊢
    by_cases h1 : flag &&& c.UT_IOREAD ≠ 0 ∧ pd.rut > c.POLL_WAIT <;>
      by_cases h2 : flag &&& c.UT_IOWRITE ≠ 0 ∧ pd.wut > c.POLL_WAIT
    · rw [if_pos h1, if_pos h2] at hf ⊢
      simp only [List.singleton_append, List.mem_cons, List.mem_singleton, List.not_mem_nil,
        or_false] at hf
      rcases hf with rfl | rfl <;> simp [List.count_cons, hne, Ne.symm hne]
    · rw [if_pos h1, if_neg h2] at hf ⊢
      simp only [List.append_nil, List.mem_singleton] at hf
      subst hf
      simp
    · rw [if_neg h1, if_pos h2] at hf ⊢
      simp only [List.nil_append, List.mem_singleton] at hf
      subst hf
      simp
    · rw [if_neg h1, if_neg h2] at hf
      simp at hf

/-- C4 at a record with fiber `100` waiting to read and fiber `200` waiting to write, both
directions requested. -/
theorem unblock_resumes_waiting_witness :
    stdConsts.WF ∧ (PollData.mk 5 true false true 100 200).closing = false ∧
      IOHandler.unblock stdConsts ⟨5, true, false, true, 100, 200⟩ 3
        = (⟨5, true, false, true, 0, 0⟩, [Event.resume 100, Event.resume 200]) ∧
      (IOHandler.unblock stdConsts ⟨5, true, false, true, 100, 200⟩ 3).2
        = (waitingIn stdConsts ⟨5, true, false, true, 100, 200⟩ 3).map Event.resume :=
  ⟨by decide, rfl, by decide,
    (unblock_resumes_waiting stdConsts (by decide) ⟨5, true, false, true, 100, 200⟩ 3 rfl).2.1⟩

/-- C5. On a non-closing record, for a requested direction whose slot is Idle or Armed,
`unblock(pd, flag)` sets that slot to Ready and resumes no fiber for that direction: all its
events are the resume of the fiber waiting in the other direction, if that one is requested
and occupied. -/
theorem unblock_defers_delivery (c : Consts) (hc : c.WF) (pd : PollData) (flag : Nat)
    (isRead : Bool) (hcl : pd.closing = false) (hm : flag &&& dirFlag c isRead ≠ 0)
    (hs : slotState c (pd.getSlot isRead) = Slot.Idle ∨
      slotState c (pd.getSlot isRead) = Slot.Armed) :
    slotState c ((IOHandler.unblock c pd flag).1.getSlot isRead) = Slot.Ready ∧
      (IOHandler.unblock c pd flag).2
        = (waitingDir c pd flag (!isRead)).map Event.resume := by
  rw [slotState_idle_iff, slotState_armed_iff c hc] at hs
  rw [slotState_ready_iff c hc, unblock_events c hc pd flag hcl, waitingIn,
    waitingDir_eq c hc, waitingDir_eq c hc, waitingDir_eq c hc, unblock_eq c pd flag hcl]
  obtain ⟨h0, h1, -⟩ := hc
  cases isRead <;> simp only [dirFlag, PollData.getSlot, Bool.false_eq_true, if_false,
      if_true, Bool.not_false, Bool.not_true] at hm hs ⊢
  · have e : ¬ pd.wut > c.POLL_WAIT := by unfold nullptr at hs; omega
    simp [slotAfterEvent, hm, hs, e]
  · have e : ¬ pd.rut > c.POLL_WAIT := by unfold nullptr at hs; omega
    simp [slotAfterEvent, hm, hs, e]

/-- C5 at a record with an Idle read slot, read requested. -/
theorem unblock_defers_delivery_witness :
    stdConsts.WF ∧
      slotState stdConsts ((PollData.mk 5 true false true 0 200).getSlot true) = Slot.Idle ∧
      slotState stdConsts
          ((IOHandler.unblock stdConsts ⟨5, true, false, true, 0, 200⟩ 1).1.getSlot true)
        = Slot.Ready ∧
      (IOHandler.unblock stdConsts ⟨5, true, false, true, 0, 200⟩ 1).2
        = (waitingDir stdConsts ⟨5, true, false, true, 0, 200⟩ 1 (!true)).map Event.resume :=
  ⟨by decide, by decide,
    unblock_defers_delivery stdConsts (by decide) ⟨5, true, false, true, 0, 200⟩ 1 true rfl
      (by decide) (Or.inl (by decide))⟩

/-- C6. On an opened record whose slot for the direction is Ready, `block` returns with that
slot reset to Idle, the other slot and every other field unchanged, and no event at all, so no
suspension is initiated. A second `block` on the same direction, with no event in between,
does initiate the suspension of its caller and leaves the slot Idle. -/
theorem block_consumes_ready (c : Consts) (hc : c.WF) (pd : PollData) (isRead : Bool)
    (cur cur2 : Nat) (openRes openRes2 : Int) (hop : pd.opened = true)
    (hs : slotState c (pd.getSlot isRead) = Slot.Ready) :
    IOHandler.block c pd isRead cur openRes = Res.ret (pd.setSlot isRead nullptr, []) ∧
      slotState c ((pd.setSlot isRead nullptr).getSlot isRead) = Slot.Idle ∧
      (pd.setSlot isRead nullptr).getSlot (!isRead) = pd.getSlot (!isRead) ∧
      IOHandler.block c (pd.setSlot isRead nullptr) isRead cur2 openRes2
        = Res.ret ({ pd.setSlot isRead nullptr with isBlockingOnRead := isRead },
            [Event.suspend cur2]) := by
  rw [slotState_ready_iff c hc] at hs
  rw [slotState_idle_iff]
  obtain ⟨h0, h1, -⟩ := hc
  obtain ⟨fd, op, cl, ib, rut, wut⟩ := pd
  simp only at hop
  subst hop
  have e1 : ¬ (0 = c.POLL_READY) := by omega
  cases isRead <;> simp only [PollData.getSlot, Bool.false_eq_true, if_false, if_true] at hs <;>
    subst hs <;>
    simp [IOHandler.block, PollData.getSlot, PollData.setSlot, nullptr, e1]

/-- C6 at an opened record whose read slot is Ready. -/
theorem block_consumes_ready_witness :
    stdConsts.WF ∧
      slotState stdConsts ((PollData.mk 5 true false false 1 200).getSlot true) = Slot.Ready ∧
      IOHandler.block stdConsts ⟨5, true, false, false, 1, 200⟩ true 100 0
        = Res.ret ((PollData.mk 5 true false false 1 200).setSlot true nullptr, []) :=
  ⟨by decide, by decide,
    (block_consumes_ready stdConsts (by decide) ⟨5, true, false, false, 1, 200⟩ true 100 100
      0 0 rfl (by decide)).1⟩

/-- C7 (the code at the failing input). With fiber `100` waiting in the read slot, `block` for
read by fiber `200` writes the diagnostic and then goes on: it sets `isBlockingOnRead` and
initiates the suspension of `200`. The callback of `200` then finds the slot occupied, writes a
diagnostic, stores `200` nowhere and resumes nobody. The slot holds `100` throughout. -/
theorem block_on_occupied_slot_suspends :
    IOHandler.block stdConsts ⟨5, true, false, false, 100, 0⟩ true 200 0
        = Res.ret (⟨5, true, false, true, 100, 0⟩,
            [Event.log LogMsg.exceptionOnOpenRut, Event.suspend 200]) ∧
      IOHandler.postSwitchFunc stdConsts 200 ⟨5, true, false, true, 100, 0⟩
        = Res.ret (⟨5, true, false, true, 100, 0⟩, [Event.log LogMsg.exceptionOnRut]) := by
  decide

/-- C8. On a non-closing record, the post-suspend callback of a fiber `f` acts on the slot
named by `isBlockingOnRead`: if that slot is Ready it becomes Idle and the only event is one
resume of `f`; if it is Idle it becomes `Waiting f` and there is no event. In both cases the
other slot is unchanged. -/
theorem postSwitchFunc_ready_or_idle (c : Consts) (hc : c.WF) (pd : PollData) (f : Nat)
    (hf : validUT c f) (hcl : pd.closing = false) :
    (slotState c (pd.getSlot pd.isBlockingOnRead) = Slot.Ready →
        IOHandler.postSwitchFunc c f pd
            = Res.ret (pd.setSlot pd.isBlockingOnRead nullptr, [Event.resume f]) ∧
          slotState c ((pd.setSlot pd.isBlockingOnRead nullptr).getSlot pd.isBlockingOnRead)
            = Slot.Idle ∧
          (pd.setSlot pd.isBlockingOnRead nullptr).getSlot (!pd.isBlockingOnRead)
            = pd.getSlot (!pd.isBlockingOnRead)) ∧
      (slotState c (pd.getSlot pd.isBlockingOnRead) = Slot.Idle →
        IOHandler.postSwitchFunc c f pd = Res.ret (pd.setSlot pd.isBlockingOnRead f, []) ∧
          slotState c ((pd.setSlot pd.isBlockingOnRead f).getSlot pd.isBlockingOnRead)
            = Slot.Waiting f ∧
          (pd.setSlot pd.isBlockingOnRead f).getSlot (!pd.isBlockingOnRead)
            = pd.getSlot (!pd.isBlockingOnRead)) := by
  rw [slotState_ready_iff c hc, slotState_idle_iff, slotState_idle_iff,
    slotState_waiting_iff c hc]
  obtain ⟨h0, h1, -⟩ := hc
  have hf0 : f ≠ 0 := by unfold validUT at hf; omega
  have e1 : ¬ (0 = c.POLL_READY) := by omega
  obtain ⟨fd, op, cl, ib, rut, wut⟩ := pd
  simp only at hcl
  subst hcl
  constructor
  · intro hs
    cases ib <;> simp only [PollData.getSlot, Bool.false_eq_true, if_false, if_true] at hs <;>
      subst hs <;>
      simp [IOHandler.postSwitchFunc, PollData.getSlot, PollData.setSlot, nullptr, hf0]
  · intro hs
    cases ib <;> simp only [PollData.getSlot, Bool.false_eq_true, if_false, if_true] at hs <;>
      subst hs <;>
      simp [IOHandler.postSwitchFunc, PollData.getSlot, PollData.setSlot, nullptr, hf0, e1, hf]

/-- C8 at a record whose claimed (read) slot is Idle. -/
theorem postSwitchFunc_ready_or_idle_witness :
    stdConsts.WF ∧ validUT stdConsts 100 ∧
      slotState stdConsts ((PollData.mk 5 true false true 0 200).getSlot
          (PollData.mk 5 true false true 0 200).isBlockingOnRead) = Slot.Idle ∧
      IOHandler.postSwitchFunc stdConsts 100 ⟨5, true, false, true, 0, 200⟩
        = Res.ret ((PollData.mk 5 true false true 0 200).setSlot
            (PollData.mk 5 true false true 0 200).isBlockingOnRead 100, []) :=
  ⟨by decide, by decide, by decide,
    ((postSwitchFunc_ready_or_idle stdConsts (by decide) ⟨5, true, false, true, 0, 200⟩ 100
      (by decide) rfl).2 (by decide)).1⟩

/-- C9. On a record with `closing = true`, each of `unblock`, `unblockBulk` and the post-suspend
callback of a fiber `f` returns the record unchanged (both slots and all flags), emits no event
(nobody is resumed), and `unblockBulk` leaves the batch and `bulkCounter` unchanged. -/
theorem closing_record_is_untouched (c : Consts) (io : IOHandler) (pd : PollData)
    (flag f : Nat) (hf : validUT c f) (hcl : pd.closing = true) :
    IOHandler.unblock c pd flag = (pd, []) ∧
      IOHandler.unblockBulk c io pd flag = (io, pd, []) ∧
      IOHandler.postSwitchFunc c f pd = Res.ret (pd, []) := by
  have hf0 : f ≠ 0 := by unfold validUT at hf; omega
  simp [IOHandler.unblock, IOHandler.unblockBulk, IOHandler.postSwitchFunc, hcl, nullptr, hf0]

/-- C9 at a closing record with a fiber in its write slot. -/
theorem closing_record_is_untouched_witness :
    validUT stdConsts 100 ∧
      IOHandler.unblock stdConsts ⟨5, true, true, true, 0, 200⟩ 3
        = (⟨5, true, true, true, 0, 200⟩, []) ∧
      IOHandler.unblockBulk stdConsts ⟨0, []⟩ ⟨5, true, true, true, 0, 200⟩ 3
        = (⟨0, []⟩, ⟨5, true, true, true, 0, 200⟩, []) ∧
      IOHandler.postSwitchFunc stdConsts 100 ⟨5, true, true, true, 0, 200⟩
        = Res.ret (⟨5, true, true, true, 0, 200⟩, []) :=
  ⟨by decide,
    closing_record_is_untouched stdConsts ⟨0, []⟩ ⟨5, true, true, true, 0, 200⟩ 3 100
      (by decide) rfl⟩

/-- C10 (amended). One bulk pass over a non-empty list of non-closing records, started with
`bulkCounter = 0` and an empty batch: the scheduler submissions of the pass are exactly one
submission, carrying the fibers that were waiting in the requested directions (in order) with
their number as count, when there is such a fiber, and none otherwise; `bulkCounter` is `0` at
the end; and every requested slot that was Idle is Ready afterwards, so that the next `block` on
it returns without suspending whenever the record is opened or its lazy registration
succeeds. -/
theorem bulkPass_one_submission (c : Consts) (hc : c.WF) (items : List (PollData × Nat))
    (hne : items ≠ []) (hcl : ∀ p ∈ items, p.1.closing = false) :
    submissions (bulkPass c { bulkCounter := 0, bulkQueue := [] } items).2.2 =
        (if items.flatMap (fun p => waitingIn c p.1 p.2) = [] then []
         else [Event.schedule (items.flatMap (fun p => waitingIn c p.1 p.2))
            (items.flatMap (fun p => waitingIn c p.1 p.2)).length]) ∧
      (bulkPass c { bulkCounter := 0, bulkQueue := [] } items).1.bulkCounter = 0 ∧
      List.Forall₂
        (fun p pd1 => ∀ isRead, p.2 &&& dirFlag c isRead ≠ 0 →
          slotState c (p.1.getSlot isRead) = Slot.Idle →
          slotState c (pd1.getSlot isRead) = Slot.Ready ∧
            ∀ cur openRes, pd1.opened = true ∨ (pd1.fd > 0 ∧ openRes = 0) →
              returnsWithoutSuspending (IOHandler.block c pd1 isRead cur openRes) = true)
        items (bulkPass c { bulkCounter := 0, bulkQueue := [] } items).2.1 := by
  obtain ⟨h1, h2, h3⟩ := bulkPass_eq c items { bulkCounter := 0, bulkQueue := [] } rfl hne hcl
  have hfun : (fun p : PollData × Nat => takenOut c p.1 p.2)
      = (fun p => waitingIn c p.1 p.2) :=
    funext (fun p => takenOut_eq_waitingIn c hc p.1 p.2)
  refine ⟨?_, ?_, ?_⟩
  · rw [h3, hfun]
    simp only [List.nil_append, Nat.zero_add]
  · rw [h1]
  · rw [h2, List.forall₂_map_right_iff, List.forall₂_same]
    intro p hp isRead hm hs
    rw [slotState_idle_iff] at hs
    have hr : (IOHandler.unblock c p.1 p.2).1.getSlot isRead = c.POLL_READY := by
      rw [unblock_eq c p.1 p.2 (hcl p hp)]
      cases isRead <;>
        simp only [dirFlag, PollData.getSlot, Bool.false_eq_true, if_false, if_true] at hm hs ⊢ <;>
        simp [hm, hs, slotAfterEvent]
    exact ⟨(slotState_ready_iff c hc _).2 hr, fun cur openRes ho =>
      block_ready_returns c _ isRead cur openRes hr ho⟩

/-- C10 at three records: fiber `100` waits to read on the first, the second is Idle, fiber
`300` waits to write on the third. The pass makes one submission, of the two fibers. -/
theorem bulkPass_one_submission_witness :
    stdConsts.WF ∧ threeRecords ≠ [] ∧ (∀ p ∈ threeRecords, p.1.closing = false) ∧
      threeRecords.flatMap (fun p => waitingIn stdConsts p.1 p.2) = [100, 300] ∧
      bulkPass stdConsts { bulkCounter := 0, bulkQueue := [] } threeRecords
        = ({ bulkCounter := 0, bulkQueue := [] },
            [⟨5, true, false, false, 0, 0⟩, ⟨6, true, false, false, 1, 0⟩,
              ⟨7, true, false, false, 1, 0⟩],
            [Event.markReady 100, Event.bulkPush 100, Event.markReady 300, Event.bulkPush 300,
              Event.schedule [100, 300] 2]) ∧
      submissions (bulkPass stdConsts { bulkCounter := 0, bulkQueue := [] } threeRecords).2.2 =
        (if threeRecords.flatMap (fun p => waitingIn stdConsts p.1 p.2) = [] then []
         else [Event.schedule (threeRecords.flatMap (fun p => waitingIn stdConsts p.1 p.2))
            (threeRecords.flatMap (fun p => waitingIn stdConsts p.1 p.2)).length]) :=
  ⟨by decide, by decide, by decide, by decide, by decide,
    (bulkPass_one_submission stdConsts (by decide) threeRecords (by decide) (by decide)).1⟩

/-- C10 (counterexample). A pass over one non-closing record that is not opened, with its Idle
read slot requested, leaves that slot Ready; but the next `block` on it first registers the
descriptor, and when `_Open` fails it leaves through `exit` and does not return. -/
theorem bulkPass_next_block_may_exit :
    stdConsts.WF ∧ [((⟨5, false, false, false, 0, 0⟩ : PollData), 1)] ≠ [] ∧
      (∀ p ∈ [((⟨5, false, false, false, 0, 0⟩ : PollData), 1)], p.1.closing = false) ∧
      (1 &&& dirFlag stdConsts true ≠ 0) ∧
      slotState stdConsts ((PollData.mk 5 false false false 0 0).getSlot true) = Slot.Idle ∧
      (bulkPass stdConsts { bulkCounter := 0, bulkQueue := [] }
          [(⟨5, false, false, false, 0, 0⟩, 1)]).2.1
        = [⟨5, false, false, false, 1, 0⟩] ∧
      slotState stdConsts ((PollData.mk 5 false false false 1 0).getSlot true) = Slot.Ready ∧
      IOHandler.block stdConsts ⟨5, false, false, false, 1, 0⟩ true 100 (-1)
        = Res.exited (⟨5, false, false, false, 1, 0⟩,
            [Event.backendOpen 5, Event.log LogMsg.epollError]) ∧
      ¬ (∀ cur openRes, returnsWithoutSuspending
          (IOHandler.block stdConsts ⟨5, false, false, false, 1, 0⟩ true cur openRes) = true) := by
  refine ⟨by decide, by decide, by decide, by decide, by decide, by decide, by decide,
    by decide, ?_⟩
  intro h
  exact absurd (h 100 (-1)) (by decide)

/-- C11. `unblockBulk` refines `unblock`: for every record and mask, `unblockBulk` is the
transition the specification describes (`unblockBulkSpec`). The record it leaves is the record
`unblock` leaves; the fibers it marks READY and the fibers it appends to the batch are, in the
same order, the fibers `unblock` resumes; it resumes nobody itself; and `bulkCounter` grows by
the number of those fibers. -/
theorem unblockBulk_refines_unblock (c : Consts) (io : IOHandler) (pd : PollData)
    (flag : Nat) :
    IOHandler.unblockBulk c io pd flag = unblockBulkSpec c io pd flag ∧
      (IOHandler.unblockBulk c io pd flag).2.1 = (IOHandler.unblock c pd flag).1 ∧
      readiedFibers (IOHandler.unblockBulk c io pd flag).2.2
        = resumedFibers (IOHandler.unblock c pd flag).2 ∧
      batchedFibers (IOHandler.unblockBulk c io pd flag).2.2
        = resumedFibers (IOHandler.unblock c pd flag).2 ∧
      resumedFibers (IOHandler.unblockBulk c io pd flag).2.2 = [] ∧
      (IOHandler.unblockBulk c io pd flag).1.bulkQueue
        = io.bulkQueue ++ resumedFibers (IOHandler.unblock c pd flag).2 ∧
      (IOHandler.unblockBulk c io pd flag).1.bulkCounter
        = io.bulkCounter + (resumedFibers (IOHandler.unblock c pd flag).2).length := by
  have h := unblockBulk_eq_spec c io pd flag
  have hf := fibers_of_bulk_events (resumedFibers (IOHandler.unblock c pd flag).2)
  rw [h]
  exact ⟨rfl, rfl, hf.2.1, hf.1, hf.2.2, rfl, rfl⟩

/-- C12. Round trip and pool reuse: on a record with `fd > 0` whose registration succeeds,
`open` returns with `opened` set; and `close` on that record, whatever its slots and flags
hold by then, leaves both slots Idle (no waiter reference), `closing` and `opened` cleared,
and pushes the record to the pool exactly once. -/
theorem open_close_round_trip (c : Consts) (pd : PollData) (openRes closeRes : Int)
    (hfd : pd.fd > 0) (hreg : openRes = 0) :
    IOHandler.open_ pd openRes
        = Res.ret ({ pd with opened := true }, [Event.backendOpen pd.fd]) ∧
      ∀ (cl ib : Bool) (r w : Nat),
        slotState c (IOHandler.close c ⟨pd.fd, true, cl, ib, r, w⟩ closeRes).1.rut
            = Slot.Idle ∧
          slotState c (IOHandler.close c ⟨pd.fd, true, cl, ib, r, w⟩ closeRes).1.wut
            = Slot.Idle ∧
          (IOHandler.close c ⟨pd.fd, true, cl, ib, r, w⟩ closeRes).1.closing = false ∧
          (IOHandler.close c ⟨pd.fd, true, cl, ib, r, w⟩ closeRes).1.opened = false ∧
          (IOHandler.close c ⟨pd.fd, true, cl, ib, r, w⟩ closeRes).2.1.count Event.poolPush
            = 1 := by
  constructor
  · simp [IOHandler.open_, hfd, hreg]
  · intro cl ib r w
    rw [close_eq]
    refine ⟨(slotState_idle_iff c _).2 rfl, (slotState_idle_iff c _).2 rfl, rfl, rfl, ?_⟩
    simp [List.count_cons]

/-- C12 at descriptor 5 with fiber `100` still in the write slot when `close` is called. -/
theorem open_close_round_trip_witness :
    (PollData.mk 5 false false false 0 0).fd > 0 ∧
      IOHandler.open_ ⟨5, false, false, false, 0, 0⟩ 0
        = Res.ret (⟨5, true, false, false, 0, 0⟩, [Event.backendOpen 5]) ∧
      IOHandler.close stdConsts ⟨5, true, false, false, 0, 100⟩ 0
        = (⟨5, false, false, false, 0, 0⟩,
            [Event.backendClose 5, Event.resetPD, Event.poolPush], 0) ∧
      (IOHandler.close stdConsts ⟨5, true, false, false, 0, 100⟩ 0).2.1.count Event.poolPush
        = 1 :=
  ⟨by decide, by decide, by decide,
    ((open_close_round_trip stdConsts ⟨5, false, false, false, 0, 0⟩ 0 0 (by decide)
      rfl).2 false false 0 100).2.2.2.2⟩

/-- C13 (amended). `close` has no guard on `closing`. On every record, one with
`closing = true` among them, it runs the same steps: it deregisters from the backend, resets
the record and pushes it to the pool, and it returns what its own call of `_Close` returned;
on a record with `closing = true` this clears `closing`. A second `close` after any completed
`close` leaves the fields as the first left them, but deregisters and pushes to the pool once
more and returns its own result. -/
theorem close_is_not_guarded (c : Consts) (pd : PollData) (closeRes closeRes2 : Int) :
    IOHandler.close c pd closeRes
        = ({ pd with rut := nullptr, wut := nullptr, closing := false, opened := false },
            [Event.backendClose pd.fd, Event.resetPD, Event.poolPush], closeRes) ∧
      (pd.closing = true → (IOHandler.close c pd closeRes).1.closing ≠ pd.closing) ∧
      IOHandler.close c (IOHandler.close c pd closeRes).1 closeRes2
        = ((IOHandler.close c pd closeRes).1,
            [Event.backendClose pd.fd, Event.resetPD, Event.poolPush], closeRes2) := by
  refine ⟨?_, ?_, ?_⟩
  · rw [close_eq]; rfl
  · intro hcl
    rw [close_eq, hcl]
    simp [PollData.reset]
  · rw [close_eq, close_eq]; rfl

/-- C13 (amended) at a record with `closing = true`, and at a second `close` after a first
one on a record that was not closing. -/
theorem close_is_not_guarded_witness :
    (PollData.mk 5 true true false 0 0).closing = true ∧
      IOHandler.close stdConsts ⟨5, true, true, false, 0, 0⟩ 0
        = (⟨5, false, false, false, 0, 0⟩,
            [Event.backendClose 5, Event.resetPD, Event.poolPush], 0) ∧
      IOHandler.close stdConsts
          (IOHandler.close stdConsts ⟨5, true, false, false, 0, 100⟩ 0).1 (-1)
        = ((IOHandler.close stdConsts ⟨5, true, false, false, 0, 100⟩ 0).1,
            [Event.backendClose 5, Event.resetPD, Event.poolPush], -1) :=
  ⟨rfl, (close_is_not_guarded stdConsts ⟨5, true, true, false, 0, 0⟩ 0 0).1,
    (close_is_not_guarded stdConsts ⟨5, true, false, false, 0, 100⟩ 0 (-1)).2.2⟩

/-- C13 (counterexample). On a record with `closing = true`, `close` is no no-op: it calls
`_Close`, pushes the record to the pool and changes `closing` and `opened`. And a second
`close` after a first one that returned `0` deregisters and pushes again, and returns `-1`
when its own `_Close` returns `-1`. -/
theorem close_twice_repeats :
    (IOHandler.close stdConsts ⟨5, true, true, false, 0, 0⟩ 0).2.1
        = [Event.backendClose 5, Event.resetPD, Event.poolPush] ∧
      (IOHandler.close stdConsts ⟨5, true, true, false, 0, 0⟩ 0).1
        ≠ ⟨5, true, true, false, 0, 0⟩ ∧
      (IOHandler.close stdConsts ⟨5, true, false, false, 0, 0⟩ 0).2.2 = 0 ∧
      IOHandler.close stdConsts
          (IOHandler.close stdConsts ⟨5, true, false, false, 0, 0⟩ 0).1 (-1)
        = (⟨5, false, false, false, 0, 0⟩,
            [Event.backendClose 5, Event.resetPD, Event.poolPush], -1) := by
  decide

/-- C14 (amended). The reset at the end of `close` clears `closing`, so the guard of `unblock`
and `unblockBulk` does not hold back a later event for the retired record: each requested slot
becomes Ready (and no slot becomes Waiting); nobody is resumed and nothing is batched, both
slots having been reset to Idle. -/
theorem retired_record_takes_events (c : Consts) (hc : c.WF) (io : IOHandler)
    (pd : PollData) (closeRes : Int) (flag : Nat) :
    (IOHandler.close c pd closeRes).1.closing = false ∧
      IOHandler.unblock c (IOHandler.close c pd closeRes).1 flag
        = ({ pd.reset with
              rut := if flag &&& c.UT_IOREAD ≠ 0 then c.POLL_READY else nullptr
              wut := if flag &&& c.UT_IOWRITE ≠ 0 then c.POLL_READY else nullptr }, []) ∧
      IOHandler.unblockBulk c io (IOHandler.close c pd closeRes).1 flag
        = (io, (IOHandler.unblock c (IOHandler.close c pd closeRes).1 flag).1, []) ∧
      (∀ isRead, flag &&& dirFlag c isRead ≠ 0 →
        slotState c ((IOHandler.unblock c (IOHandler.close c pd closeRes).1 flag).1.getSlot
          isRead) = Slot.Ready) := by
  have hcl : (pd.reset).closing = false := rfl
  have hu : IOHandler.unblock c pd.reset flag
      = ({ pd.reset with
            rut := if flag &&& c.UT_IOREAD ≠ 0 then c.POLL_READY else nullptr
            wut := if flag &&& c.UT_IOWRITE ≠ 0 then c.POLL_READY else nullptr }, []) := by
    rw [unblock_eq c pd.reset flag hcl]
    simp [PollData.reset, slotAfterEvent, nullptr]
  rw [close_eq]
  refine ⟨rfl, hu, ?_, ?_⟩
  · rw [unblockBulk_eq c io pd.reset flag hcl]
    obtain ⟨n, q⟩ := io
    simp [takenOut, PollData.reset, nullptr]
  · intro isRead hm
    rw [hu, slotState_ready_iff c hc]
    cases isRead <;> simp only [dirFlag, Bool.false_eq_true, if_false, if_true] at hm <;>
      simp [PollData.getSlot, hm]

/-- C14 (amended) at descriptor 5, read requested after the close. -/
theorem retired_record_takes_events_witness :
    stdConsts.WF ∧
      IOHandler.unblock stdConsts (IOHandler.close stdConsts ⟨5, true, false, false, 0, 0⟩ 0).1 1
        = (⟨5, false, false, false, 1, 0⟩, []) ∧
      (IOHandler.close stdConsts ⟨5, true, false, false, 0, 0⟩ 0).1.closing = false :=
  ⟨by decide, by decide,
    (retired_record_takes_events stdConsts (by decide) ⟨0, []⟩ ⟨5, true, false, false, 0, 0⟩
      0 1).1⟩

/-- C14 (counterexample). After `close` has completed on descriptor 5, `unblock` with read
requested turns the read slot of the retired record from Idle to Ready, and so does
`unblockBulk`. -/
theorem retired_record_becomes_ready :
    slotState stdConsts (IOHandler.close stdConsts ⟨5, true, false, false, 0, 0⟩ 0).1.rut
        = Slot.Idle ∧
      slotState stdConsts
          (IOHandler.unblock stdConsts
            (IOHandler.close stdConsts ⟨5, true, false, false, 0, 0⟩ 0).1 1).1.rut
        = Slot.Ready ∧
      slotState stdConsts
          (IOHandler.unblockBulk stdConsts ⟨0, []⟩
            (IOHandler.close stdConsts ⟨5, true, false, false, 0, 0⟩ 0).1 1).2.1.rut
        = Slot.Ready := by
  decide

/-- C15. On a record with `fd > 0`, `open` calls the backend registration exactly once. If it
returns `0`, `open` returns with `opened` set and every other field, the two slots and
`closing` among them, unchanged. If it returns anything else, `open` writes its diagnostic and
leaves through `exit`, with the record unchanged. And `block` calls `open`, hence the
registration, exactly when `opened` is false on entry. -/
theorem open_registers_once (c : Consts) (pd : PollData) (openRes : Int) (isRead : Bool)
    (cur : Nat) (hfd : pd.fd > 0) :
    (IOHandler.open_ pd openRes).events.count (Event.backendOpen pd.fd) = 1 ∧
      (openRes = 0 → IOHandler.open_ pd openRes
        = Res.ret ({ pd with opened := true }, [Event.backendOpen pd.fd])) ∧
      (openRes ≠ 0 → IOHandler.open_ pd openRes
        = Res.exited (pd, [Event.backendOpen pd.fd, Event.log LogMsg.epollError])) ∧
      (Event.backendOpen pd.fd ∈ (IOHandler.block c pd isRead cur openRes).events
        ↔ pd.opened = false) := by
  refine ⟨?_, ?_, ?_, ?_⟩
  · by_cases h : openRes = 0 <;> simp [IOHandler.open_, hfd, h, Res.events, List.count_cons]
  · intro h; simp [IOHandler.open_, hfd, h]
  · intro h; simp [IOHandler.open_, hfd, h]
  · rw [block_eq]
    have c1 : ¬ (pd.opened = false ∧ ¬ (pd.fd > 0)) := fun h => h.2 hfd
    rw [if_neg c1]
    cases hop : pd.opened <;> split_ifs <;> simp_all [Res.events]

/-- C15 at descriptor 5 with a failing registration. -/
theorem open_registers_once_witness :
    (PollData.mk 5 false false false 0 0).fd > 0 ∧
      IOHandler.open_ ⟨5, false, false, false, 0, 0⟩ (-1)
        = Res.exited (⟨5, false, false, false, 0, 0⟩,
            [Event.backendOpen 5, Event.log LogMsg.epollError]) ∧
      (IOHandler.open_ ⟨5, false, false, false, 0, 0⟩ (-1)).events.count
          (Event.backendOpen 5) = 1 :=
  ⟨by decide, by decide,
    (open_registers_once stdConsts ⟨5, false, false, false, 0, 0⟩ (-1) true 100
      (by decide)).1⟩

/-- C16. Second readiness event: on a non-closing record, for every requested direction whose
slot is already Ready, `unblock` and `unblockBulk` leave that slot Ready; the only fiber
resumed, marked or batched is the one waiting in the other direction, if any, so the Ready
sentinel is not treated as a fiber. And on every non-closing record with no waiting fiber,
whatever its slots hold and whatever the mask, `unblock` applied twice with the same mask
leaves the record that one application leaves. -/
theorem second_event_is_noop (c : Consts) (hc : c.WF) (io : IOHandler) (pd : PollData)
    (flag : Nat) (hcl : pd.closing = false) :
    (∀ isRead, flag &&& dirFlag c isRead ≠ 0 →
        slotState c (pd.getSlot isRead) = Slot.Ready →
        slotState c ((IOHandler.unblock c pd flag).1.getSlot isRead) = Slot.Ready ∧
          (IOHandler.unblock c pd flag).2
            = (waitingDir c pd flag (!isRead)).map Event.resume ∧
          slotState c ((IOHandler.unblockBulk c io pd flag).2.1.getSlot isRead)
            = Slot.Ready ∧
          (IOHandler.unblockBulk c io pd flag).2.2
            = (waitingDir c pd flag (!isRead)).flatMap
                (fun f => [Event.markReady f, Event.bulkPush f]) ∧
          (IOHandler.unblockBulk c io pd flag).1
            = { bulkCounter := io.bulkCounter + (waitingDir c pd flag (!isRead)).length
                bulkQueue := io.bulkQueue ++ waitingDir c pd flag (!isRead) }) ∧
      ((∀ f, slotState c pd.rut ≠ Slot.Waiting f) →
        (∀ f, slotState c pd.wut ≠ Slot.Waiting f) →
        (IOHandler.unblock c (IOHandler.unblock c pd flag).1 flag).1
          = (IOHandler.unblock c pd flag).1) := by
  constructor
  · intro isRead hm hs
    rw [slotState_ready_iff c hc] at hs
    have hready := slotAfterEvent_ready c hc
    have htaken : takenOut c pd flag = waitingDir c pd flag (!isRead) := by
      rw [waitingDir_eq c hc]
      obtain ⟨h0, h1, -⟩ := hc
      cases isRead <;>
        simp only [dirFlag, PollData.getSlot, Bool.false_eq_true, if_false, if_true,
          Bool.not_false, Bool.not_true] at hm hs ⊢
      · have e : ¬ pd.wut > c.POLL_WAIT := by omega
        simp [takenOut, e]
      · have e : ¬ pd.rut > c.POLL_WAIT := by omega
        simp [takenOut, e]
    have hslot : (IOHandler.unblock c pd flag).1.getSlot isRead = c.POLL_READY := by
      rw [unblock_eq c pd flag hcl]
      cases isRead <;>
        simp only [dirFlag, PollData.getSlot, Bool.false_eq_true, if_false, if_true]
          at hm hs ⊢ <;>
        simp [hm, hs, hready]
    refine ⟨(slotState_ready_iff c hc _).2 hslot, ?_, ?_, ?_, ?_⟩
    · rw [unblock_events_takenOut c pd flag hcl, htaken]
    · rw [unblockBulk_eq c io pd flag hcl]
      exact (slotState_ready_iff c hc _).2 hslot
    · rw [unblockBulk_eq c io pd flag hcl, htaken]
    · rw [unblockBulk_eq c io pd flag hcl, htaken]
  · intro hr hw
    have hr2 : ¬ pd.rut > c.POLL_WAIT := fun h =>
      hr pd.rut ((slotState_waiting_iff c hc _ _).2 ⟨rfl, h⟩)
    have hw2 : ¬ pd.wut > c.POLL_WAIT := fun h =>
      hw pd.wut ((slotState_waiting_iff c hc _ _).2 ⟨rfl, h⟩)
    have h1 := unblock_eq c pd flag hcl
    have hcl2 : (IOHandler.unblock c pd flag).1.closing = false := by rw [h1]; exact hcl
    rw [unblock_eq c _ flag hcl2, h1]
    by_cases hR : flag &&& c.UT_IOREAD = 0 <;> by_cases hW : flag &&& c.UT_IOWRITE = 0 <;>
      simp only [ne_eq, hR, hW, not_true_eq_false, not_false_eq_true, if_true, if_false,
        slotAfterEvent_idem c hc _ hr2, slotAfterEvent_idem c hc _ hw2]

/-- C16 at a record whose read slot is Ready, read requested; and at a record with both slots
Idle, read requested twice: the first event makes the read slot Ready, the second changes
nothing. -/
theorem second_event_is_noop_witness :
    stdConsts.WF ∧
      slotState stdConsts ((PollData.mk 5 true false false 1 0).getSlot true) = Slot.Ready ∧
      IOHandler.unblock stdConsts ⟨5, true, false, false, 1, 0⟩ 1
        = (⟨5, true, false, false, 1, 0⟩, []) ∧
      slotState stdConsts
          ((IOHandler.unblock stdConsts ⟨5, true, false, false, 1, 0⟩ 1).1.getSlot true)
        = Slot.Ready ∧
      IOHandler.unblock stdConsts ⟨5, true, false, false, 0, 0⟩ 1
        = (⟨5, true, false, false, 1, 0⟩, []) ∧
      (IOHandler.unblock stdConsts
          (IOHandler.unblock stdConsts ⟨5, true, false, false, 0, 0⟩ 1).1 1).1
        = (IOHandler.unblock stdConsts ⟨5, true, false, false, 0, 0⟩ 1).1 :=
  ⟨by decide, by decide, by decide,
    ((second_event_is_noop stdConsts (by decide) ⟨0, []⟩ ⟨5, true, false, false, 1, 0⟩ 1
      rfl).1 true (by decide) (by decide)).1,
    by decide,
    (second_event_is_noop stdConsts (by decide) ⟨0, []⟩ ⟨5, true, false, false, 0, 0⟩ 1
      rfl).2 (fun f h => by simp [slotState, nullptr] at h)
        (fun f h => by simp [slotState, nullptr] at h)⟩

/-- C17 (the code at the failing input). Reader `100` and writer `200` enter `block` on the
same opened record with both slots Idle, one after the other, before either callback runs.
The entry of the writer overwrites `isBlockingOnRead`, so the callback of the reader acts on
the write slot and parks `100` there; the callback of the writer then finds the write slot
occupied, writes a diagnostic and stores `200` nowhere. At the end the read slot is Idle, the
write slot holds `100`, and `200` is suspended with no resume to come. -/
theorem interleaved_reader_writer_drops_one :
    Sys.run stdConsts
        ⟨⟨5, true, false, false, 0, 0⟩, ⟨0, []⟩, [], []⟩
        [Step.blockEntry 100 true 0, Step.blockEntry 200 false 0,
         Step.postSwitch 100, Step.postSwitch 200]
      = some ⟨⟨5, true, false, false, 0, 100⟩, ⟨0, []⟩, [],
          [Event.suspend 100, Event.suspend 200, Event.log LogMsg.exceptionOnRut]⟩ ∧
      slotState stdConsts (PollData.mk 5 true false false 0 100).rut = Slot.Idle ∧
      slotState stdConsts (PollData.mk 5 true false false 0 100).wut = Slot.Waiting 100 ∧
      Sys.run stdConsts
        ⟨⟨5, true, false, false, 0, 0⟩, ⟨0, []⟩, [], []⟩
        [Step.blockEntry 100 true 0, Step.postSwitch 100,
         Step.blockEntry 200 false 0, Step.postSwitch 200]
      = some ⟨⟨5, true, false, false, 100, 200⟩, ⟨0, []⟩, [],
          [Event.suspend 100, Event.suspend 200]⟩ := by
  decide

/-- C18 (amended). On an opened record whose slot for the direction is Idle, `block` returns
from its entry with the suspension of the caller initiated and the slot still Idle: `block`
writes `isBlockingOnRead` and nothing else, it does not store the Armed sentinel. -/
theorem block_suspends_with_idle_slot (c : Consts) (hc : c.WF) (pd : PollData)
    (isRead : Bool) (cur : Nat) (openRes : Int) (hop : pd.opened = true)
    (hidle : slotState c (pd.getSlot isRead) = Slot.Idle) :
    IOHandler.block c pd isRead cur openRes
        = Res.ret ({ pd with isBlockingOnRead := isRead }, [Event.suspend cur]) ∧
      slotState c (({ pd with isBlockingOnRead := isRead } : PollData).getSlot isRead)
        = Slot.Idle ∧
      slotState c (({ pd with isBlockingOnRead := isRead } : PollData).getSlot isRead)
        ≠ Slot.Armed := by
  have hidle2 : slotState c (({ pd with isBlockingOnRead := isRead } : PollData).getSlot
      isRead) = Slot.Idle := by
    cases isRead <;> exact hidle
  refine ⟨?_, hidle2, by rw [hidle2]; exact fun h => Slot.noConfusion h⟩
  rw [slotState_idle_iff] at hidle
  obtain ⟨h0, h1, -⟩ := hc
  have e1 : ¬ pd.getSlot isRead = c.POLL_READY := by rw [hidle]; unfold nullptr; omega
  have e2 : ¬ pd.getSlot isRead > c.POLL_WAIT := by rw [hidle]; unfold nullptr; omega
  rw [block_eq]
  obtain ⟨fd, op, cl, ib, rut, wut⟩ := pd
  simp only at hop
  subst hop
  simp [e1, e2]

/-- C18 (amended) at an opened record with both slots Idle. -/
theorem block_suspends_with_idle_slot_witness :
    stdConsts.WF ∧
      slotState stdConsts ((PollData.mk 5 true false false 0 0).getSlot true) = Slot.Idle ∧
      IOHandler.block stdConsts ⟨5, true, false, false, 0, 0⟩ true 100 0
        = Res.ret (⟨5, true, false, true, 0, 0⟩, [Event.suspend 100]) :=
  ⟨by decide, by decide,
    (block_suspends_with_idle_slot stdConsts (by decide) ⟨5, true, false, false, 0, 0⟩ true
      100 0 rfl (by decide)).1⟩

/-- C18 (counterexample). On an opened, non-closing record with an Idle read slot, `block`
for read initiates the suspension of fiber `100`, and the read slot of the record it leaves
is Idle, not Armed. -/
theorem block_leaves_slot_idle :
    IOHandler.block stdConsts ⟨5, true, false, false, 0, 0⟩ true 100 0
        = Res.ret (⟨5, true, false, true, 0, 0⟩, [Event.suspend 100]) ∧
      slotState stdConsts (PollData.mk 5 true false true 0 0).rut = Slot.Idle ∧
      slotState stdConsts (PollData.mk 5 true false true 0 0).rut ≠ Slot.Armed := by
  decide

/-- C19. Batch counter invariant. After any sequence of `PollReadyBulk` calls that starts with
`bulkCounter = 0` and an empty batch, `bulkCounter` is the number of fibers put into the batch
since the last scheduler submission; every submission made carries a positive count, equal to
the length of the batch it hands over; and the batches handed over, followed by the batch still
held, are the fibers put into the batch, each one once. A call with `isLast = false` makes no
submission and does not lower the counter. A call with `isLast = true` leaves the counter at
`0` and makes one submission, of the batch and counter its own `unblockBulk` left, exactly when
that counter is positive. -/
theorem batch_counter_invariant (c : Consts) (calls : List (PollData × Nat × Bool))
    (io : IOHandler) (pd : PollData) (flag : Nat) :
    (bulkRun c { bulkCounter := 0, bulkQueue := [] } calls).1.bulkCounter
        = pushedSince 0 (bulkRun c { bulkCounter := 0, bulkQueue := [] } calls).2 ∧
      (∀ q n, Event.schedule q n ∈ (bulkRun c { bulkCounter := 0, bulkQueue := [] } calls).2 →
        0 < n ∧ n = q.length) ∧
      submittedFibers (bulkRun c { bulkCounter := 0, bulkQueue := [] } calls).2
          ++ (bulkRun c { bulkCounter := 0, bulkQueue := [] } calls).1.bulkQueue
        = batchedFibers (bulkRun c { bulkCounter := 0, bulkQueue := [] } calls).2 ∧
      (submissions (IOHandler.PollReadyBulk c io pd flag false).2.2 = [] ∧
        io.bulkCounter ≤ (IOHandler.PollReadyBulk c io pd flag false).1.bulkCounter) ∧
      ((IOHandler.PollReadyBulk c io pd flag true).1.bulkCounter = 0 ∧
        submissions (IOHandler.PollReadyBulk c io pd flag true).2.2
          = if 0 < (IOHandler.unblockBulk c io pd flag).1.bulkCounter then
              [Event.schedule (IOHandler.unblockBulk c io pd flag).1.bulkQueue
                (IOHandler.unblockBulk c io pd flag).1.bulkCounter]
            else []) := by
  obtain ⟨-, h2, h3, h4⟩ := bulkRun_inv c calls { bulkCounter := 0, bulkQueue := [] } rfl
  refine ⟨h2, h4, by simpa using h3, ?_, ?_⟩
  · rw [PollReadyBulk_notLast, unblockBulk_eq_spec]
    exact ⟨submissions_bulk _, Nat.le_add_right _ _⟩
  · have hspec := unblockBulk_eq_spec c io pd flag
    unfold unblockBulkSpec at hspec
    simp only at hspec
    generalize resumedFibers (IOHandler.unblock c pd flag).2 = l at hspec
    unfold IOHandler.PollReadyBulk
    rw [hspec]
    dsimp only [Scheduler.schedule]
    by_cases h : io.bulkCounter + l.length > 0
    · have h2 : true = true ∧ io.bulkCounter + l.length > 0 := ⟨rfl, h⟩
      rw [if_pos h2, if_pos h]
      refine ⟨rfl, ?_⟩
      rw [submissions_append, submissions_bulk]
      rfl
    · have h2 : ¬ (true = true ∧ io.bulkCounter + l.length > 0) := fun x => h x.2
      rw [if_neg h2, if_neg h]
      exact ⟨by show io.bulkCounter + l.length = 0; omega, submissions_bulk _⟩

end UThreads
